import Mathlib

/-!
Verification of the black-box log parser (`bb_parser.py`).

The Python source is shallowly embedded below.  Python dictionaries are
modelled as insertion-ordered association lists (`setVal` updates in place or
appends, matching CPython dict semantics for lookup and membership);
Python's numeric tower for the values stored in `error_count` is modelled by
the `Value` type (ints, floats-as-rationals, bools); fallible Python code
(uncaught exceptions such as `ValueError` from `float(...)`/`int(...)`,
`IndexError`, `TypeError`, `KeyError`, `ZeroDivisionError`) is modelled with
`Except Unit`.  Floats appearing in the source are decimal literals and the
arithmetic performed on them (parsing, subtraction, comparison against small
decimal thresholds) is exact, so `Rat` is a faithful model.
-/

namespace BB

/-- Values stored in the Python `error_count` dictionaries: Python ints,
floats (exact decimal arithmetic, modelled by `Rat`) and bools. -/
inductive Value where
  | int  (n : Int)
  | num  (q : Rat)
  | bool (b : Bool)
deriving DecidableEq, Repr

namespace Value

/-- Numeric content of a value (Python `bool` compares as 0/1). -/
def toRat : Value → Rat
  | .int n  => (n : Rat)
  | .num q  => q
  | .bool b => if b then 1 else 0

/-- Python `v + 1` for the values that occur in `error_count`
(`int+int = int`, `float+int = float`, `bool+int = int`). -/
def add1 : Value → Value
  | .int n  => .int (n + 1)
  | .num q  => .num (q + 1)
  | .bool b => .int ((if b then 1 else 0) + 1)

/-- Python subtraction `a - b` on `error_count` values. -/
def sub : Value → Value → Value
  | .int a,  .int b  => .int (a - b)
  | .int a,  .bool b => .int (a - (if b then 1 else 0))
  | .bool a, .int b  => .int ((if a then 1 else 0) - b)
  | .bool a, .bool b => .int ((if a then 1 else 0) - (if b then 1 else 0))
  | a, b => .num (a.toRat - b.toRat)

@[simp] theorem toRat_add1 (v : Value) : (add1 v).toRat = v.toRat + 1 := by
  cases v with
  | int n => simp [add1, toRat]
  | num q => simp [add1, toRat]
  | bool b => cases b <;> norm_num [add1, toRat]

end Value

/-- A Python dict with `String` keys, as an insertion-ordered assoc list. -/
abbrev ErrMap := List (String × Value)

/-- `m[k]` with a default (for `defaultdict(int)` reads the default is `int 0`). -/
def getD (m : ErrMap) (k : String) (d : Value) : Value :=
  match m.lookup k with
  | some v => v
  | none => d

/-- `m[k] = v`: update in place if the key exists, else append (CPython
dict insertion order). -/
def setVal (m : ErrMap) (k : String) (v : Value) : ErrMap :=
  match m with
  | [] => [(k, v)]
  | (k', v') :: rest => if k' = k then (k, v) :: rest else (k', v') :: setVal rest k v

/-- `k in m`. -/
def hasKey (m : ErrMap) (k : String) : Bool :=
  (m.lookup k).isSome

/-- `m.pop(k)`: remove the key. -/
def eraseKey (m : ErrMap) (k : String) : ErrMap :=
  match m with
  | [] => []
  | (k', v') :: rest => if k' = k then rest else (k', v') :: eraseKey rest k

/-- `defaultdict(int)`: `m[k] += 1`. -/
def bump (m : ErrMap) (k : String) : ErrMap :=
  setVal m k ((getD m k (.int 0)).add1)

theorem lookup_cons (a : String) (b : Value) (tl : ErrMap) (k : String) :
    ((a, b) :: tl).lookup k = if k = a then some b else tl.lookup k := by
  rcases eq_or_ne k a with h | h
  · simp [List.lookup, h]
  · have hb : (k == a) = false := beq_eq_false_iff_ne.mpr h
    simp [List.lookup, hb, h]

theorem lookup_eq_none_of_not_mem_keys (m : ErrMap) (k : String)
    (h : k ∉ m.map Prod.fst) : m.lookup k = none := by
  induction m with
  | nil => simp
  | cons hd tl ih =>
    obtain ⟨a, b⟩ := hd
    simp only [List.map_cons, List.mem_cons, not_or] at h
    simp [lookup_cons, h.1, ih h.2]

@[simp] theorem lookup_setVal_self (m : ErrMap) (k : String) (v : Value) :
    (setVal m k v).lookup k = some v := by
  induction m with
  | nil => simp [setVal, lookup_cons]
  | cons hd tl ih =>
    obtain ⟨a, b⟩ := hd
    by_cases h : a = k
    · subst h; simp [setVal, lookup_cons]
    · have h' : k ≠ a := fun hh => h hh.symm
      simp [setVal, h, lookup_cons, h', ih]

@[simp] theorem lookup_setVal_ne (m : ErrMap) (k k' : String) (v : Value) (h : k' ≠ k) :
    (setVal m k v).lookup k' = m.lookup k' := by
  induction m with
  | nil => simp [setVal, lookup_cons, h]
  | cons hd tl ih =>
    obtain ⟨a, b⟩ := hd
    by_cases ha : a = k
    · subst ha
      simp [setVal, lookup_cons, h]
    · simp [setVal, ha, lookup_cons, ih]

@[simp] theorem lookup_eraseKey_self (m : ErrMap) (k : String) (hm : (m.map Prod.fst).Nodup) :
    (eraseKey m k).lookup k = none := by
  induction m with
  | nil => simp [eraseKey]
  | cons hd tl ih =>
    obtain ⟨a, b⟩ := hd
    simp only [List.map_cons, List.nodup_cons] at hm
    by_cases ha : a = k
    · subst ha
      simp only [eraseKey, if_pos rfl]
      exact lookup_eq_none_of_not_mem_keys tl a hm.1
    · have h' : k ≠ a := fun hh => ha hh.symm
      simp [eraseKey, ha, lookup_cons, h', ih hm.2]

@[simp] theorem lookup_eraseKey_ne (m : ErrMap) (k k' : String) (h : k' ≠ k) :
    (eraseKey m k).lookup k' = m.lookup k' := by
  induction m with
  | nil => simp [eraseKey]
  | cons hd tl ih =>
    obtain ⟨a, b⟩ := hd
    by_cases ha : a = k
    · subst ha
      simp [eraseKey, lookup_cons, h]
    · simp [eraseKey, ha, lookup_cons, ih]

theorem getD_setVal_self (m : ErrMap) (k : String) (v d : Value) :
    getD (setVal m k v) k d = v := by
  simp [getD]

theorem getD_setVal_ne (m : ErrMap) (k k' : String) (v d : Value) (h : k' ≠ k) :
    getD (setVal m k v) k' d = getD m k' d := by
  simp [getD, lookup_setVal_ne m k k' v h]

theorem hasKey_setVal (m : ErrMap) (k k' : String) (v : Value) :
    hasKey (setVal m k v) k' = (k' = k || hasKey m k') := by
  rcases eq_or_ne k' k with h | h
  · subst h; simp [hasKey]
  · simp [hasKey, lookup_setVal_ne m k k' v h, h]

theorem getD_bump_ne (m : ErrMap) (k k' : String) (d : Value) (h : k' ≠ k) :
    getD (bump m k) k' d = getD m k' d := by
  simp [bump, getD_setVal_ne _ _ _ _ _ h]

theorem toRat_getD_bump_self (m : ErrMap) (k : String) :
    (getD (bump m k) k (.int 0)).toRat = (getD m k (.int 0)).toRat + 1 := by
  simp [bump, getD_setVal_self]

/-! ### String helpers mirroring the Python string operations used by the parser -/

/-- Python's substring test `pat in s`, on char lists. -/
def isSubstrL (pat : List Char) : List Char → Bool
  | [] => pat.isEmpty
  | c :: rest => pat.isPrefixOf (c :: rest) || isSubstrL pat rest

/-- Python's substring test `pat in s`. -/
def isSubstr (pat s : String) : Bool := isSubstrL pat.toList s.toList

/-- Python `str.split(sep)` for a one-character separator: splits at every
occurrence and keeps empty pieces; the result is never empty. -/
def splitChar (sep : Char) : List Char → List (List Char)
  | [] => [[]]
  | c :: rest =>
    let r := splitChar sep rest
    if c = sep then [] :: r
    else
      match r with
      | [] => [[c]]
      | g :: gs => (c :: g) :: gs

/-- The whitespace set of Python's `str.strip()` (ASCII part). -/
def isPyWhitespace (c : Char) : Bool :=
  c = ' ' || c = '\t' || c = '\n' || c = '\x0d' || c = '\x0b' || c = '\x0c'

/-- Python `str.strip()`. -/
def trimChars (cs : List Char) : List Char :=
  ((cs.dropWhile isPyWhitespace).reverse.dropWhile isPyWhitespace).reverse

def digitsToNat (ds : List Char) : Nat :=
  ds.foldl (fun n c => 10 * n + (c.toNat - '0'.toNat)) 0

/-- A nonempty run of decimal digits. -/
def allDigits (cs : List Char) : Bool := !cs.isEmpty && cs.all (·.isDigit)

/-- Sign-then-digits integer grammar: models Python `int(str)` (which strips
surrounding whitespace, then accepts an optional sign and decimal digits). -/
def parseIntChars? (cs : List Char) : Option Int :=
  match cs with
  | '+' :: rest => if allDigits rest then some ((digitsToNat rest : Int)) else none
  | '-' :: rest => if allDigits rest then some (-(digitsToNat rest : Int)) else none
  | _ => if allDigits cs then some ((digitsToNat cs : Int)) else none

/-- Python `int(s)`. -/
def parseInt? (s : String) : Option Int := parseIntChars? (trimChars s.toList)

/-- Exponent part of a float literal: optional sign and digits. -/
def parseExp? (cs : List Char) : Option Int :=
  match cs with
  | '+' :: rest => if allDigits rest then some ((digitsToNat rest : Int)) else none
  | '-' :: rest => if allDigits rest then some (-(digitsToNat rest : Int)) else none
  | _ => if allDigits cs then some ((digitsToNat cs : Int)) else none

/-- Mantissa of a float literal: `digits`, `digits.digits`, `digits.` or
`.digits` (at least one digit overall). -/
def parseMantissa? (cs : List Char) : Option Rat :=
  match splitChar '.' cs with
  | [ip] => if allDigits ip then some ((digitsToNat ip : Rat)) else none
  | [ip, fp] =>
    if ip.all (·.isDigit) && fp.all (·.isDigit) && !(ip.isEmpty && fp.isEmpty) then
      some ((digitsToNat ip : Rat) + (digitsToNat fp : Rat) / (10 : Rat) ^ fp.length)
    else none
  | _ => none

def pow10 (e : Int) : Rat :=
  if 0 ≤ e then (10 : Rat) ^ e.toNat else ((10 : Rat) ^ (-e).toNat)⁻¹

/-- Python `float(s)` on decimal literals: strip whitespace, optional sign,
mantissa, optional `e`/`E` exponent.  (The special spellings `inf`/`nan` and
digit-group underscores are not needed by any log line here.)  Decimal
literals are exact rationals, so `Rat` models them faithfully. -/
def parseFloat? (s : String) : Option Rat :=
  let cs := (trimChars s.toList).map Char.toLower
  let signed : Rat × List Char :=
    match cs with
    | '+' :: rest => (1, rest)
    | '-' :: rest => (-1, rest)
    | _ => (1, cs)
  match splitChar 'e' signed.2 with
  | [m] => (parseMantissa? m).map (signed.1 * ·)
  | [m, ex] =>
    match parseMantissa? m, parseExp? ex with
    | some mv, some ev => some (signed.1 * mv * pow10 ev)
    | _, _ => none
  | _ => none

/-- Python `line.split(' ')[-1].strip()` (split on single spaces keeps empty
pieces; the split list is never empty). -/
def lastToken (line : String) : String :=
  String.mk (trimChars ((splitChar ' ' line.toList).getLastD []))

/-- Python `int(line.split(' ')[4].replace('(','').replace(')',''))`:
`none` models both the `IndexError` (fewer than 5 tokens) and the
`ValueError` (unparsable token). -/
def token4Int? (line : String) : Option Int := do
  let t ← (splitChar ' ' line.toList)[4]?
  parseInt? (String.mk (t.filter (fun c => c ≠ '(' && c ≠ ')')))

/-- Python `line.replace('=', ',')`. -/
def replaceEqComma (s : String) : String :=
  String.mk (s.toList.map (fun c => if c = '=' then ',' else c))

/-- Python `line[line.rindex(pat) + len(pat):]`: the suffix after the last
occurrence of `pat`.  The only call site is guarded by `pat in line`, so the
not-found `ValueError` case (modelled as the whole list) is unreachable. -/
def afterLast (pat l : List Char) : List Char :=
  match (((List.range (l.length + 1)).filter
      (fun i => pat.isPrefixOf (l.drop i))).getLast?) with
  | some i => l.drop (i + pat.length)
  | none => l

/-! ### `search_for_log_msg_errors` (bb_parser.py lines 216-326)

The scan is driven by the configured rule table `LOG_MSGS_ERRORS`
(code -> (pattern, description)); the pattern is a single string for every
rule except the composite `CANCEL_CLEANING_RUN` rule, whose pattern is a
list of alternative strings.  The description component is display-only and
is dropped here.  Undecodable byte lines are skipped by the source before
any rule logic runs, so the model takes the already-decoded lines. -/

/-- The `error_desc` entry of a rule: either one pattern string or a list of
alternatives (the composite cancel rule). -/
inductive RuleDesc where
  | one (d : String)
  | many (ds : List String)
deriving DecidableEq, Repr

structure Rule where
  code : String
  desc : RuleDesc
deriving DecidableEq, Repr

/-- The mutable state of `search_for_log_msg_errors`. -/
structure LogState where
  errorCount : ErrMap
  raisedErrors : ErrMap
  cleaningStarted : Bool
  navFallingTimestamps : List Int
  baseReconnectedTimestamp : Int
  lastRobotStateTransition : String
deriving DecidableEq, Repr

def initLogState : LogState :=
  { errorCount := []
    raisedErrors := []
    cleaningStarted := false
    navFallingTimestamps := []
    baseReconnectedTimestamp := 0
    lastRobotStateTransition := "DEFAULT_STATE" }

/-- Lines 272-274: `for desc in error_desc: if desc in line: error_count[code] += 1`. -/
def condBumpFold (line code : String) (ds : List String) (m : ErrMap) : ErrMap :=
  ds.foldl (fun m' d => if isSubstr d line then bump m' code else m') m

/-- Lines 279-280: `for state in self.AUTONOMY_SUSPENDED_STATES: error_count[state] = 0`. -/
def resetFold (susp : List String) (m : ErrMap) : ErrMap :=
  susp.foldl (fun m' s => setVal m' s (.int 0)) m

/-- One iteration of the `for error_code, (error_desc, _) in
self.LOG_MSGS_ERRORS.items()` loop (lines 267-305).  `susp` is the
configured `AUTONOMY_SUSPENDED_STATES` list.  `.error ()` models an
uncaught exception (`ValueError` from `float`/`int`, `IndexError` from the
token access, `TypeError` from `list in str`); only `UnicodeDecodeError`
is caught by the source, at decode time. -/
def applyRule (susp : List String) (line : String) (st : LogState) (r : Rule) :
    Except Unit LogState :=
  -- lines 268-269: the state-transition marker check runs on every rule iteration
  let st := if isSubstr "new state = " line then
      { st with lastRobotStateTransition := replaceEqComma line } else st
  if r.code = "CANCEL_CLEANING_RUN" then
    -- lines 270-274: count once per matching alternative pattern
    match r.desc with
    | .many ds => .ok { st with errorCount := condBumpFold line r.code ds st.errorCount }
    | .one d =>
      -- Python would iterate the characters of the string here
      .ok { st with errorCount :=
        condBumpFold line r.code (d.toList.map (fun c => String.mk [c])) st.errorCount }
  else
    match r.desc with
    | .many _ => .error ()  -- `list in str` raises TypeError
    | .one d =>
      if isSubstr d line then
        -- line 276: every match increments first ...
        let m := bump st.errorCount r.code
        -- ... then the per-code special cases run (lines 278-304)
        if r.code = "SUSPENDED_AUTONOMY_STATES_RESET" then
          .ok { st with errorCount := resetFold susp m }
        else if r.code = "ERROR_RAISED" then
          let msg := (String.mk (afterLast d.toList line.toList)).trim
          .ok { st with errorCount := m, raisedErrors := bump st.raisedErrors msg }
        else if r.code = "TOTAL_CLEANING_TIME" then
          match parseFloat? (lastToken line) with
          | some q => .ok { st with errorCount := setVal m r.code (.num q),
                                    cleaningStarted := true }
          | none => .error ()
        else if r.code = "AUTONOMOUS_DOCK" then
          .ok { st with errorCount := setVal m r.code (.bool (lastToken line = "true")) }
        else if r.code = "TOTAL_PAUSED_TIME" then
          match parseFloat? (lastToken line) with
          | some q => .ok { st with errorCount := setVal m r.code (.num q) }
          | none => .error ()
        else if r.code = "NAVIGATION_FALLING" then
          match token4Int? line with
          | some t => .ok { st with errorCount := m,
                                    navFallingTimestamps := st.navFallingTimestamps ++ [t] }
          | none => .error ()
        else if r.code = "AVG_EXT_VOLTAGE_AFTER_RECONNECT" then
          match token4Int? line with
          | some t => .ok { st with errorCount := m, baseReconnectedTimestamp := t }
          | none => .error ()
        else
          .ok { st with errorCount := m }
      else
        .ok st

/-- Processing of one decoded line (lines 262-305): the `Start MAPPING`
activity check, then every rule in order. -/
def processLine (rules : List Rule) (susp : List String) (st : LogState) (line : String) :
    Except Unit LogState :=
  let st := if isSubstr "Start MAPPING" line then { st with cleaningStarted := true } else st
  rules.foldlM (applyRule susp line) st

/-- Terminal-status assignment (lines 310-318). -/
def statusWrite (st : LogState) : ErrMap :=
  if !st.cleaningStarted then setVal st.errorCount "INVALID" (.int 1)
  else if hasKey st.errorCount "COMPLETE_CLEANING_RUN"
      && !hasKey st.errorCount "CANCEL_CLEANING_RUN" then
    setVal st.errorCount "PASS" (.int 1)
  else setVal st.errorCount "FAIL" (.int 1)

/-- Finalization after the line stream ends (lines 310-322): terminal status
assignment, then the paused-time pop and subtraction. -/
def finalizeRun (st : LogState) : LogState :=
  let ec := statusWrite st
  let totalPaused := if hasKey ec "TOTAL_PAUSED_TIME" then
      getD ec "TOTAL_PAUSED_TIME" (.int 0) else .int 0
  let ec := eraseKey ec "TOTAL_PAUSED_TIME"
  let ec := setVal ec "TOTAL_CLEANING_TIME"
      ((getD ec "TOTAL_CLEANING_TIME" (.int 0)).sub totalPaused)
  { st with errorCount := ec }

/-- The whole scan: fold the per-line step over the decoded lines, then
finalize.  `.error ()` is an uncaught exception aborting the run. -/
def search_for_log_msg_errors (rules : List Rule) (susp : List String)
    (lines : List String) : Except Unit LogState :=
  (lines.foldlM (processLine rules susp) initLogState).map finalizeRun

theorem hasKey_eraseKey_ne (m : ErrMap) (k k' : String) (h : k' ≠ k) :
    hasKey (eraseKey m k) k' = hasKey m k' := by
  simp [hasKey, lookup_eraseKey_ne m k k' h]

/-- The three terminal-status keys after `finalizeRun`, as functions of the
pre-finalization state. -/
theorem finalize_status_keys (st : LogState) :
    (hasKey (finalizeRun st).errorCount "INVALID"
       = (!st.cleaningStarted || hasKey st.errorCount "INVALID"))
    ∧ (hasKey (finalizeRun st).errorCount "PASS"
       = ((st.cleaningStarted && (hasKey st.errorCount "COMPLETE_CLEANING_RUN"
            && !hasKey st.errorCount "CANCEL_CLEANING_RUN")) || hasKey st.errorCount "PASS"))
    ∧ (hasKey (finalizeRun st).errorCount "FAIL"
       = ((st.cleaningStarted && !(hasKey st.errorCount "COMPLETE_CLEANING_RUN"
            && !hasKey st.errorCount "CANCEL_CLEANING_RUN")) || hasKey st.errorCount "FAIL")) := by
  have hne : ∀ k : String, k = "INVALID" ∨ k = "PASS" ∨ k = "FAIL" →
      hasKey (finalizeRun st).errorCount k = hasKey (statusWrite st) k := by
    intro k hk
    show hasKey (setVal (eraseKey _ "TOTAL_PAUSED_TIME") "TOTAL_CLEANING_TIME" _) k = _
    rcases hk with h | h | h <;> subst h <;>
      rw [hasKey_setVal, hasKey_eraseKey_ne] <;> simp
  refine ⟨?_, ?_, ?_⟩
  · rw [hne "INVALID" (Or.inl rfl)]
    by_cases hc : st.cleaningStarted
    · by_cases h1 : hasKey st.errorCount "COMPLETE_CLEANING_RUN"
          && !hasKey st.errorCount "CANCEL_CLEANING_RUN" <;>
        simp [statusWrite, hc, h1, hasKey_setVal]
    · simp [statusWrite, hc, hasKey_setVal]
  · rw [hne "PASS" (Or.inr (Or.inl rfl))]
    by_cases hc : st.cleaningStarted
    · by_cases h1 : hasKey st.errorCount "COMPLETE_CLEANING_RUN"
          && !hasKey st.errorCount "CANCEL_CLEANING_RUN" <;>
        simp [statusWrite, hc, h1, hasKey_setVal]
    · simp [statusWrite, hc, hasKey_setVal]
  · rw [hne "FAIL" (Or.inr (Or.inr rfl))]
    by_cases hc : st.cleaningStarted
    · by_cases h1 : hasKey st.errorCount "COMPLETE_CLEANING_RUN"
          && !hasKey st.errorCount "CANCEL_CLEANING_RUN" <;>
        simp [statusWrite, hc, h1, hasKey_setVal]
    · simp [statusWrite, hc, hasKey_setVal]

/-- C1: finalization of the line scan assigns exactly one terminal status:
INVALID when the activity flag (cleaning started) was never set; otherwise
PASS when `COMPLETE_CLEANING_RUN` is present in the counts and
`CANCEL_CLEANING_RUN` is absent, and FAIL in every other case.  (The
hypotheses say the scan state does not already carry a terminal-status key;
no rule writes those keys.) -/
theorem C1_finalize_exactly_one_terminal_status (st : LogState)
    (hI : hasKey st.errorCount "INVALID" = false)
    (hP : hasKey st.errorCount "PASS" = false)
    (hF : hasKey st.errorCount "FAIL" = false) :
    (hasKey (finalizeRun st).errorCount "INVALID" = !st.cleaningStarted)
    ∧ (hasKey (finalizeRun st).errorCount "PASS"
        = (st.cleaningStarted && (hasKey st.errorCount "COMPLETE_CLEANING_RUN"
             && !hasKey st.errorCount "CANCEL_CLEANING_RUN")))
    ∧ (hasKey (finalizeRun st).errorCount "FAIL"
        = (st.cleaningStarted && !(hasKey st.errorCount "COMPLETE_CLEANING_RUN"
             && !hasKey st.errorCount "CANCEL_CLEANING_RUN")))
    ∧ ((if hasKey (finalizeRun st).errorCount "INVALID" then 1 else 0)
        + (if hasKey (finalizeRun st).errorCount "PASS" then 1 else 0)
        + (if hasKey (finalizeRun st).errorCount "FAIL" then 1 else 0) = 1) := by
  obtain ⟨h1, h2, h3⟩ := finalize_status_keys st
  rw [hI] at h1; rw [hP] at h2; rw [hF] at h3
  simp only [Bool.or_false] at h1 h2 h3
  refine ⟨h1, h2, h3, ?_⟩
  rw [h1, h2, h3]
  by_cases hc : st.cleaningStarted
  · by_cases hx : hasKey st.errorCount "COMPLETE_CLEANING_RUN"
        && !hasKey st.errorCount "CANCEL_CLEANING_RUN" <;> simp [hc, hx]
  · simp [hc]

/-- Witness for C1 at the initial (empty) scan state. -/
theorem C1_witness :
    (hasKey initLogState.errorCount "INVALID" = false)
    ∧ ((hasKey (finalizeRun initLogState).errorCount "INVALID" = !initLogState.cleaningStarted)
      ∧ (hasKey (finalizeRun initLogState).errorCount "PASS"
          = (initLogState.cleaningStarted && (hasKey initLogState.errorCount "COMPLETE_CLEANING_RUN"
               && !hasKey initLogState.errorCount "CANCEL_CLEANING_RUN")))
      ∧ (hasKey (finalizeRun initLogState).errorCount "FAIL"
          = (initLogState.cleaningStarted && !(hasKey initLogState.errorCount "COMPLETE_CLEANING_RUN"
               && !hasKey initLogState.errorCount "CANCEL_CLEANING_RUN")))
      ∧ ((if hasKey (finalizeRun initLogState).errorCount "INVALID" then 1 else 0)
          + (if hasKey (finalizeRun initLogState).errorCount "PASS" then 1 else 0)
          + (if hasKey (finalizeRun initLogState).errorCount "FAIL" then 1 else 0) = 1)) :=
  ⟨rfl, C1_finalize_exactly_one_terminal_status initLogState rfl rfl rfl⟩

/-- Counting effect of the composite-cancel inner loop (lines 272-274):
one increment per matching pattern. -/
theorem cancelFold_toRat (line code : String) (ds : List String) (m : ErrMap) :
    (getD (condBumpFold line code ds m) code (.int 0)).toRat
      = (getD m code (.int 0)).toRat + (ds.countP (fun d => isSubstr d line) : Nat) := by
  unfold condBumpFold
  induction ds generalizing m with
  | nil => simp
  | cons d rest ih =>
    simp only [List.foldl_cons, List.countP_cons]
    by_cases h : isSubstr d line
    · rw [if_pos h, ih, toRat_getD_bump_self, if_pos h]
      push_cast
      ring
    · rw [if_neg h, ih]
      simp [h]

/-- The composite cancel rule set used for the concrete C6 scenarios. -/
def cancelRules : List Rule :=
  [⟨"CANCEL_CLEANING_RUN", .many ["user cancel", "abort clean"]⟩]

/-- C6: the composite `CANCEL_CLEANING_RUN` rule increments once per matching
pattern per line (general statement), so two distinct patterns on two
different lines give count 2, and a single line containing both pattern
substrings also gives count 2 (not deduplicated per line). -/
theorem C6_cancel_multi_pattern_counts :
    (∀ (susp : List String) (line : String) (st : LogState) (ds : List String),
      ∃ st', applyRule susp line st ⟨"CANCEL_CLEANING_RUN", .many ds⟩ = .ok st'
        ∧ (getD st'.errorCount "CANCEL_CLEANING_RUN" (.int 0)).toRat
            = (getD st.errorCount "CANCEL_CLEANING_RUN" (.int 0)).toRat
              + (ds.countP (fun d => isSubstr d line) : Nat))
    ∧ ((search_for_log_msg_errors cancelRules []
          ["robot user cancel pressed", "robot abort clean issued"]).map
        (fun st => getD st.errorCount "CANCEL_CLEANING_RUN" (.int 0)) = .ok (.int 2))
    ∧ ((search_for_log_msg_errors cancelRules []
          ["robot user cancel and abort clean together"]).map
        (fun st => getD st.errorCount "CANCEL_CLEANING_RUN" (.int 0)) = .ok (.int 2)) := by
  refine ⟨?_, by rfl, by rfl⟩
  intro susp line st ds
  refine ⟨_, rfl, ?_⟩
  by_cases hb : isSubstr "new state = " line <;>
    simp only [applyRule, hb, if_true, if_false, Bool.false_eq_true, ite_true, ite_false] <;>
    exact cancelFold_toRat line "CANCEL_CLEANING_RUN" ds _

/-! ### Invariants of the line scan (for C10 and C3) -/

/-- `r`'s single-pattern match against a line (the composite rule and the
ill-typed `.many` case never take the `elif error_desc in line` branch). -/
def matchesLine (r : Rule) (l : String) : Bool :=
  match r.desc with
  | .one d => isSubstr d l
  | .many _ => false

/-- An invariant carried through an `Except`-valued left fold. -/
theorem foldlM_ok_invariant {α σ : Type} (f : σ → α → Except Unit σ) (P : σ → Prop)
    (l : List α) (s₀ s₁ : σ)
    (hstep : ∀ s a s', a ∈ l → f s a = .ok s' → P s → P s')
    (h : l.foldlM f s₀ = .ok s₁) (h₀ : P s₀) : P s₁ := by
  induction l generalizing s₀ with
  | nil =>
    simp only [List.foldlM_nil] at h
    cases h
    exact h₀
  | cons a rest ih =>
    rw [List.foldlM_cons] at h
    cases hfa : f s₀ a with
    | error e =>
      rw [hfa] at h
      have h' : (Except.error e : Except Unit σ) = .ok s₁ := h
      exact Except.noConfusion h'
    | ok s' =>
      rw [hfa] at h
      have h' : rest.foldlM f s' = .ok s₁ := h
      exact ih s' (fun s b s'' hb => hstep s b s'' (List.mem_cons_of_mem a hb)) h'
        (hstep s₀ a s' (List.mem_cons_self a rest) hfa h₀)

/-- An element on which the step always fails makes the whole fold fail. -/
theorem foldlM_error {α σ : Type} (f : σ → α → Except Unit σ) (l : List α) (a : α)
    (ha : a ∈ l) (hf : ∀ s, f s a = .error ()) (s₀ : σ) :
    l.foldlM f s₀ = .error () := by
  induction l generalizing s₀ with
  | nil => cases ha
  | cons b rest ih =>
    rw [List.foldlM_cons]
    rcases List.mem_cons.mp ha with h | h
    · subst h
      rw [hf s₀]
      rfl
    · cases hfb : f s₀ b with
      | error e => cases e; rfl
      | ok s' => exact ih h s'

theorem mem_keys_setVal (m : ErrMap) (k x : String) (v : Value) :
    x ∈ (setVal m k v).map Prod.fst ↔ x ∈ m.map Prod.fst ∨ x = k := by
  induction m with
  | nil => simp [setVal]
  | cons hd tl ih =>
    obtain ⟨a, b⟩ := hd
    by_cases h : a = k
    · subst h
      simp [setVal]
      tauto
    · simp [setVal, h, ih]
      tauto

theorem nodup_keys_setVal (m : ErrMap) (k : String) (v : Value)
    (h : (m.map Prod.fst).Nodup) : ((setVal m k v).map Prod.fst).Nodup := by
  induction m with
  | nil => simp [setVal]
  | cons hd tl ih =>
    obtain ⟨a, b⟩ := hd
    simp only [List.map_cons, List.nodup_cons] at h
    by_cases hak : a = k
    · subst hak
      simpa [setVal] using h
    · simp only [setVal, hak, if_false, List.map_cons, List.nodup_cons]
      refine ⟨?_, ih h.2⟩
      rw [mem_keys_setVal]
      rintro (hmem | rfl)
      · exact h.1 hmem
      · exact hak rfl

theorem nodup_keys_bump (m : ErrMap) (k : String) (h : (m.map Prod.fst).Nodup) :
    ((bump m k).map Prod.fst).Nodup := nodup_keys_setVal m k _ h

theorem nodup_keys_foldl_setVal {β : Type} (l : List β) (g : β → String) (w : β → Value)
    (m : ErrMap) (h : (m.map Prod.fst).Nodup) :
    ((l.foldl (fun m' x => setVal m' (g x) (w x)) m).map Prod.fst).Nodup := by
  induction l generalizing m with
  | nil => exact h
  | cons x rest ih => exact ih _ (nodup_keys_setVal m (g x) (w x) h)

theorem nodup_keys_condBumpFold (l : List String) (line code : String) (m : ErrMap)
    (h : (m.map Prod.fst).Nodup) :
    ((condBumpFold line code l m).map Prod.fst).Nodup := by
  unfold condBumpFold
  induction l generalizing m with
  | nil => exact h
  | cons d rest ih =>
    simp only [List.foldl_cons]
    by_cases hd : isSubstr d line
    · rw [if_pos hd]; exact ih _ (nodup_keys_bump m code h)
    · rw [if_neg hd]; exact ih m h

/-- Exhaustive description of what `applyRule` can do to `error_count`. -/
theorem applyRule_errorCount_cases (susp : List String) (line : String) (st : LogState)
    (r : Rule) (st' : LogState) (h : applyRule susp line st r = .ok st') :
    (r.code = "CANCEL_CLEANING_RUN" ∧
      ∃ ds, st'.errorCount = condBumpFold line r.code ds st.errorCount)
    ∨ st'.errorCount = st.errorCount
    ∨ (matchesLine r line = true ∧
        (st'.errorCount = bump st.errorCount r.code
          ∨ st'.errorCount = resetFold susp (bump st.errorCount r.code)
          ∨ ∃ v, st'.errorCount = setVal (bump st.errorCount r.code) r.code v)) := by
  obtain ⟨code, desc⟩ := r
  unfold applyRule at h
  by_cases hb : isSubstr "new state = " line <;>
  simp only [hb, Bool.false_eq_true, if_true, if_false, ite_true, ite_false] at h <;>
  · by_cases hc : code = "CANCEL_CLEANING_RUN"
    · rw [if_pos hc] at h
      cases desc with
      | many ds =>
        dsimp only at h
        cases h
        exact Or.inl ⟨hc, ds, rfl⟩
      | one d =>
        dsimp only at h
        cases h
        exact Or.inl ⟨hc, _, rfl⟩
    · rw [if_neg hc] at h
      cases desc with
      | many ds => dsimp only at h; cases h
      | one d =>
        dsimp only at h
        by_cases hm : isSubstr d line
        · rw [if_pos hm] at h
          refine Or.inr (Or.inr ⟨hm, ?_⟩)
          by_cases h1 : code = "SUSPENDED_AUTONOMY_STATES_RESET"
          · rw [if_pos h1] at h; cases h; exact Or.inr (Or.inl rfl)
          · rw [if_neg h1] at h
            by_cases h2 : code = "ERROR_RAISED"
            · rw [if_pos h2] at h; cases h; exact Or.inl rfl
            · rw [if_neg h2] at h
              by_cases h3 : code = "TOTAL_CLEANING_TIME"
              · rw [if_pos h3] at h
                cases hp : parseFloat? (lastToken line) with
                | none => rw [hp] at h; cases h
                | some q => rw [hp] at h; cases h; exact Or.inr (Or.inr ⟨_, rfl⟩)
              · rw [if_neg h3] at h
                by_cases h4 : code = "AUTONOMOUS_DOCK"
                · rw [if_pos h4] at h; cases h; exact Or.inr (Or.inr ⟨_, rfl⟩)
                · rw [if_neg h4] at h
                  by_cases h5 : code = "TOTAL_PAUSED_TIME"
                  · rw [if_pos h5] at h
                    cases hp : parseFloat? (lastToken line) with
                    | none => rw [hp] at h; cases h
                    | some q => rw [hp] at h; cases h; exact Or.inr (Or.inr ⟨_, rfl⟩)
                  · rw [if_neg h5] at h
                    by_cases h6 : code = "NAVIGATION_FALLING"
                    · rw [if_pos h6] at h
                      cases hp : token4Int? line with
                      | none => rw [hp] at h; cases h
                      | some t => rw [hp] at h; cases h; exact Or.inl rfl
                    · rw [if_neg h6] at h
                      by_cases h7 : code = "AVG_EXT_VOLTAGE_AFTER_RECONNECT"
                      · rw [if_pos h7] at h
                        cases hp : token4Int? line with
                        | none => rw [hp] at h; cases h
                        | some t => rw [hp] at h; cases h; exact Or.inl rfl
                      · rw [if_neg h7] at h; cases h; exact Or.inl rfl
        · rw [if_neg hm] at h
          cases h
          exact Or.inr (Or.inl rfl)

/-- `applyRule` preserves key uniqueness of `error_count`. -/
theorem applyRule_nodup_keys (susp : List String) (line : String) (st : LogState) (r : Rule)
    (st' : LogState) (h : applyRule susp line st r = .ok st')
    (hn : (st.errorCount.map Prod.fst).Nodup) :
    (st'.errorCount.map Prod.fst).Nodup := by
  rcases applyRule_errorCount_cases susp line st r st' h with
    ⟨_, ds, he⟩ | he | ⟨_, he | he | ⟨v, he⟩⟩ <;> rw [he]
  · exact nodup_keys_condBumpFold ds line r.code _ hn
  · exact hn
  · exact nodup_keys_bump _ _ hn
  · exact nodup_keys_foldl_setVal susp id (fun _ => .int 0) _ (nodup_keys_bump _ _ hn)
  · exact nodup_keys_setVal _ _ _ (nodup_keys_bump _ _ hn)

theorem getD_condBumpFold_ne (line code k : String) (ds : List String) (m : ErrMap)
    (d : Value) (hk : k ≠ code) : getD (condBumpFold line code ds m) k d = getD m k d := by
  unfold condBumpFold
  induction ds generalizing m with
  | nil => rfl
  | cons p rest ih =>
    simp only [List.foldl_cons]
    by_cases hp : isSubstr p line
    · rw [if_pos hp, ih, getD_bump_ne m code k d hk]
    · rw [if_neg hp, ih]

theorem getD_resetFold_zero (susp : List String) (m : ErrMap) (k : String)
    (h : getD m k (.int 0) = .int 0) :
    getD (resetFold susp m) k (.int 0) = .int 0 := by
  unfold resetFold
  induction susp generalizing m with
  | nil => exact h
  | cons s rest ih =>
    simp only [List.foldl_cons]
    rcases eq_or_ne k s with hs | hs
    · subst hs; exact ih _ (getD_setVal_self m k (.int 0) (.int 0))
    · exact ih _ (by rw [getD_setVal_ne m s k _ _ hs]; exact h)

/-- If no rule coded `k` matches the line (and `k` is not the composite
cancel code), its stored count keeps the defaultdict zero. -/
theorem applyRule_getD_zero (susp : List String) (line : String) (st : LogState)
    (r : Rule) (st' : LogState) (k : String)
    (hkc : k ≠ "CANCEL_CLEANING_RUN")
    (hkm : r.code = k → matchesLine r line = false)
    (h : applyRule susp line st r = .ok st')
    (h0 : getD st.errorCount k (.int 0) = .int 0) :
    getD st'.errorCount k (.int 0) = .int 0 := by
  rcases applyRule_errorCount_cases susp line st r st' h with
    ⟨hcode, ds, he⟩ | he | ⟨hm, he | he | ⟨v, he⟩⟩ <;> rw [he]
  · rw [getD_condBumpFold_ne line r.code k ds _ _ (hcode ▸ hkc)]
    exact h0
  · exact h0
  all_goals {
    have hck : r.code ≠ k := by
      intro hek
      rw [hkm hek] at hm
      exact Bool.false_ne_true hm
    have hkr : k ≠ r.code := fun hx => hck hx.symm
    first
    | rw [getD_bump_ne _ _ _ _ hkr]; exact h0
    | { exact getD_resetFold_zero susp _ k (by rw [getD_bump_ne _ _ _ _ hkr]; exact h0) }
    | { rw [getD_setVal_ne _ _ _ _ _ hkr, getD_bump_ne _ _ _ _ hkr]; exact h0 } }

/-- The `Start MAPPING` pre-step of a line leaves `error_count` unchanged. -/
theorem processLine_as_fold (rules : List Rule) (susp : List String) (st : LogState)
    (line : String) :
    ∃ st₀, processLine rules susp st line = rules.foldlM (applyRule susp line) st₀
      ∧ st₀.errorCount = st.errorCount := by
  by_cases hb : isSubstr "Start MAPPING" line
  · refine ⟨{ st with cleaningStarted := true }, ?_, rfl⟩
    unfold processLine
    rw [if_pos hb]
  · refine ⟨st, ?_, rfl⟩
    unfold processLine
    rw [if_neg hb]

theorem processLine_getD_zero (rules : List Rule) (susp : List String) (st : LogState)
    (line : String) (st' : LogState) (k : String)
    (hkc : k ≠ "CANCEL_CLEANING_RUN")
    (hrules : ∀ r ∈ rules, r.code = k → matchesLine r line = false)
    (h : processLine rules susp st line = .ok st')
    (h0 : getD st.errorCount k (.int 0) = .int 0) :
    getD st'.errorCount k (.int 0) = .int 0 := by
  obtain ⟨st₀, heq, hec⟩ := processLine_as_fold rules susp st line
  rw [heq] at h
  exact foldlM_ok_invariant (applyRule susp line)
    (fun s => getD s.errorCount k (.int 0) = .int 0) rules st₀ st'
    (fun s r s' hr hok hP => applyRule_getD_zero susp line s r s' k hkc (hrules r hr) hok hP)
    h (show getD st₀.errorCount k (.int 0) = .int 0 by rw [hec]; exact h0)

theorem processLine_nodup_keys (rules : List Rule) (susp : List String) (st : LogState)
    (line : String) (st' : LogState)
    (h : processLine rules susp st line = .ok st')
    (hn : (st.errorCount.map Prod.fst).Nodup) :
    (st'.errorCount.map Prod.fst).Nodup := by
  obtain ⟨st₀, heq, hec⟩ := processLine_as_fold rules susp st line
  rw [heq] at h
  exact foldlM_ok_invariant (applyRule susp line)
    (fun s => (s.errorCount.map Prod.fst).Nodup) rules st₀ st'
    (fun s r s' _ hok hP => applyRule_nodup_keys susp line s r s' hok hP)
    h (show (st₀.errorCount.map Prod.fst).Nodup by rw [hec]; exact hn)

/-- Any state reachable by the line fold keeps `error_count` keys unique. -/
theorem scanFold_nodup_keys (rules : List Rule) (susp : List String) (lines : List String)
    (stPre : LogState)
    (h : lines.foldlM (processLine rules susp) initLogState = .ok stPre) :
    (stPre.errorCount.map Prod.fst).Nodup :=
  foldlM_ok_invariant (processLine rules susp)
    (fun s => (s.errorCount.map Prod.fst).Nodup) lines initLogState stPre
    (fun s l s' _ hok hP => processLine_nodup_keys rules susp s l s' hok hP)
    h (by simp [initLogState])

theorem scanFold_getD_zero (rules : List Rule) (susp : List String) (lines : List String)
    (stPre : LogState) (k : String)
    (hkc : k ≠ "CANCEL_CLEANING_RUN")
    (hlines : ∀ l ∈ lines, ∀ r ∈ rules, r.code = k → matchesLine r l = false)
    (h : lines.foldlM (processLine rules susp) initLogState = .ok stPre) :
    getD stPre.errorCount k (.int 0) = .int 0 :=
  foldlM_ok_invariant (processLine rules susp)
    (fun s => getD s.errorCount k (.int 0) = .int 0) lines initLogState stPre
    (fun s l s' hl hok hP =>
      processLine_getD_zero rules susp s l s' k hkc (hlines l hl) hok hP)
    h rfl

theorem getD_statusWrite_ne (st : LogState) (k : String) (d : Value)
    (h1 : k ≠ "INVALID") (h2 : k ≠ "PASS") (h3 : k ≠ "FAIL") :
    getD (statusWrite st) k d = getD st.errorCount k d := by
  unfold statusWrite
  by_cases hc : !st.cleaningStarted
  · rw [if_pos hc, getD_setVal_ne _ _ _ _ _ h1]
  · rw [if_neg hc]
    by_cases hp : hasKey st.errorCount "COMPLETE_CLEANING_RUN"
        && !hasKey st.errorCount "CANCEL_CLEANING_RUN"
    · rw [if_pos hp, getD_setVal_ne _ _ _ _ _ h2]
    · rw [if_neg hp, getD_setVal_ne _ _ _ _ _ h3]

theorem nodup_keys_statusWrite (st : LogState) (hn : (st.errorCount.map Prod.fst).Nodup) :
    ((statusWrite st).map Prod.fst).Nodup := by
  unfold statusWrite
  by_cases hc : !st.cleaningStarted
  · rw [if_pos hc]; exact nodup_keys_setVal _ _ _ hn
  · rw [if_neg hc]
    by_cases hp : hasKey st.errorCount "COMPLETE_CLEANING_RUN"
        && !hasKey st.errorCount "CANCEL_CLEANING_RUN"
    · rw [if_pos hp]; exact nodup_keys_setVal _ _ _ hn
    · rw [if_neg hp]; exact nodup_keys_setVal _ _ _ hn

/-- `finalizeRun` always pops `TOTAL_PAUSED_TIME` and always (re)writes
`TOTAL_CLEANING_TIME`, subtracting the stored paused time (default 0)
from the stored cleaning time (default 0). -/
theorem finalize_cleaning_time (st : LogState) (hn : (st.errorCount.map Prod.fst).Nodup) :
    hasKey (finalizeRun st).errorCount "TOTAL_PAUSED_TIME" = false
    ∧ hasKey (finalizeRun st).errorCount "TOTAL_CLEANING_TIME" = true
    ∧ getD (finalizeRun st).errorCount "TOTAL_CLEANING_TIME" (.int 0)
        = (getD st.errorCount "TOTAL_CLEANING_TIME" (.int 0)).sub
            (getD st.errorCount "TOTAL_PAUSED_TIME" (.int 0)) := by
  have hfr : (finalizeRun st).errorCount
      = setVal (eraseKey (statusWrite st) "TOTAL_PAUSED_TIME") "TOTAL_CLEANING_TIME"
          ((getD (eraseKey (statusWrite st) "TOTAL_PAUSED_TIME")
              "TOTAL_CLEANING_TIME" (.int 0)).sub
            (if hasKey (statusWrite st) "TOTAL_PAUSED_TIME" then
              getD (statusWrite st) "TOTAL_PAUSED_TIME" (.int 0) else .int 0)) := rfl
  have hTP : getD (statusWrite st) "TOTAL_PAUSED_TIME" (.int 0)
      = getD st.errorCount "TOTAL_PAUSED_TIME" (.int 0) :=
    getD_statusWrite_ne st _ _ (by decide) (by decide) (by decide)
  have hTC : getD (statusWrite st) "TOTAL_CLEANING_TIME" (.int 0)
      = getD st.errorCount "TOTAL_CLEANING_TIME" (.int 0) :=
    getD_statusWrite_ne st _ _ (by decide) (by decide) (by decide)
  have hpop : (if hasKey (statusWrite st) "TOTAL_PAUSED_TIME" then
      getD (statusWrite st) "TOTAL_PAUSED_TIME" (.int 0) else .int 0)
      = getD (statusWrite st) "TOTAL_PAUSED_TIME" (.int 0) := by
    by_cases hk : hasKey (statusWrite st) "TOTAL_PAUSED_TIME"
    · rw [if_pos hk]
    · rw [if_neg hk]
      unfold hasKey at hk
      unfold getD
      cases hl : (statusWrite st).lookup "TOTAL_PAUSED_TIME" with
      | none => rfl
      | some v => rw [hl] at hk; simp at hk
  refine ⟨?_, ?_, ?_⟩
  · rw [hfr, hasKey_setVal]
    have : hasKey (eraseKey (statusWrite st) "TOTAL_PAUSED_TIME") "TOTAL_PAUSED_TIME"
        = false := by
      unfold hasKey
      rw [lookup_eraseKey_self _ _ (nodup_keys_statusWrite st hn)]
      rfl
    rw [this]
    decide
  · rw [hfr, hasKey_setVal]
    rfl
  · rw [hfr, getD_setVal_self, hpop, hTP]
    have : getD (eraseKey (statusWrite st) "TOTAL_PAUSED_TIME")
        "TOTAL_CLEANING_TIME" (.int 0)
        = getD (statusWrite st) "TOTAL_CLEANING_TIME" (.int 0) := by
      unfold getD
      rw [lookup_eraseKey_ne _ _ _ (by decide)]
    rw [this, hTC]

theorem Value.toRat_sub (a b : Value) : (a.sub b).toRat = a.toRat - b.toRat := by
  cases a with
  | int n =>
    cases b with
    | int m => simp [Value.sub, Value.toRat]
    | num q => simp [Value.sub, Value.toRat]
    | bool c => cases c <;> simp [Value.sub, Value.toRat]
  | num p =>
    cases b with
    | int m => simp [Value.sub, Value.toRat]
    | num q => simp [Value.sub, Value.toRat]
    | bool c => cases c <;> simp [Value.sub, Value.toRat]
  | bool c =>
    cases b with
    | int m => cases c <;> simp [Value.sub, Value.toRat]
    | num q => cases c <;> simp [Value.sub, Value.toRat]
    | bool d => cases c <;> cases d <;> simp [Value.sub, Value.toRat]

/-- C10: after finalization, `TOTAL_PAUSED_TIME` never remains in the counts
and `TOTAL_CLEANING_TIME` is always present; when no cleaning-time and no
paused-time line was seen its value is 0, and when no cleaning-time line was
seen it equals the negated stored paused time (so with only a paused-time
line, the negated paused time). -/
theorem C10_cleaning_minus_paused_finalization (rules : List Rule) (susp : List String)
    (lines : List String) (stPre : LogState)
    (h : lines.foldlM (processLine rules susp) initLogState = .ok stPre) :
    hasKey (finalizeRun stPre).errorCount "TOTAL_PAUSED_TIME" = false
    ∧ hasKey (finalizeRun stPre).errorCount "TOTAL_CLEANING_TIME" = true
    ∧ ((∀ l ∈ lines, ∀ r ∈ rules,
          (r.code = "TOTAL_CLEANING_TIME" ∨ r.code = "TOTAL_PAUSED_TIME") →
            matchesLine r l = false) →
        getD (finalizeRun stPre).errorCount "TOTAL_CLEANING_TIME" (.int 0) = .int 0)
    ∧ ((∀ l ∈ lines, ∀ r ∈ rules, r.code = "TOTAL_CLEANING_TIME" →
          matchesLine r l = false) →
        (getD (finalizeRun stPre).errorCount "TOTAL_CLEANING_TIME" (.int 0)).toRat
          = -(getD stPre.errorCount "TOTAL_PAUSED_TIME" (.int 0)).toRat) := by
  have hn := scanFold_nodup_keys rules susp lines stPre h
  obtain ⟨h1, h2, h3⟩ := finalize_cleaning_time stPre hn
  refine ⟨h1, h2, ?_, ?_⟩
  · intro hno
    have hc : getD stPre.errorCount "TOTAL_CLEANING_TIME" (.int 0) = .int 0 :=
      scanFold_getD_zero rules susp lines stPre _ (by decide)
        (fun l hl r hr he => hno l hl r hr (Or.inl he)) h
    have hp : getD stPre.errorCount "TOTAL_PAUSED_TIME" (.int 0) = .int 0 :=
      scanFold_getD_zero rules susp lines stPre _ (by decide)
        (fun l hl r hr he => hno l hl r hr (Or.inr he)) h
    rw [h3, hc, hp]
    decide
  · intro hno
    have hc : getD stPre.errorCount "TOTAL_CLEANING_TIME" (.int 0) = .int 0 :=
      scanFold_getD_zero rules susp lines stPre _ (by decide) hno h
    rw [h3, hc, Value.toRat_sub]
    simp [Value.toRat]

/-- The one-rule table used to instantiate the C10 statement. -/
def cleaningRules : List Rule := [⟨"TOTAL_CLEANING_TIME", .one "TOTAL_CLEANING_TIME"⟩]

/-- Witness for C10: a run whose single line matches nothing. -/
theorem C10_witness :
    hasKey (finalizeRun initLogState).errorCount "TOTAL_PAUSED_TIME" = false
    ∧ hasKey (finalizeRun initLogState).errorCount "TOTAL_CLEANING_TIME" = true
    ∧ getD (finalizeRun initLogState).errorCount "TOTAL_CLEANING_TIME" (.int 0) = .int 0
    ∧ (getD (finalizeRun initLogState).errorCount "TOTAL_CLEANING_TIME" (.int 0)).toRat
        = -(getD initLogState.errorCount "TOTAL_PAUSED_TIME" (.int 0)).toRat := by
  obtain ⟨h1, h2, h3, h4⟩ :=
    C10_cleaning_minus_paused_finalization cleaningRules [] ["hello"] initLogState rfl
  exact ⟨h1, h2, h3 (by decide), h4 (by decide)⟩

/-! ### C3: numeric parse failure on a captured token -/

/-- A line that matches a numeric-capture rule with an unparsable captured
token (the scan's `float(...)`/`int(...)` call raises on it). -/
def captureFails (r : Rule) (l : String) : Bool :=
  match r.desc with
  | .many _ => false
  | .one d =>
    isSubstr d l &&
      (((r.code = "TOTAL_CLEANING_TIME" || r.code = "TOTAL_PAUSED_TIME")
          && (parseFloat? (lastToken l)).isNone)
        || ((r.code = "NAVIGATION_FALLING" || r.code = "AVG_EXT_VOLTAGE_AFTER_RECONNECT")
          && (token4Int? l).isNone))

theorem applyRule_captureFails_error (susp : List String) (l : String) (st : LogState)
    (r : Rule) (hcf : captureFails r l = true) :
    applyRule susp l st r = .error () := by
  obtain ⟨code, desc⟩ := r
  cases desc with
  | many ds => simp [captureFails] at hcf
  | one d =>
    simp only [captureFails, Bool.and_eq_true, Bool.or_eq_true, decide_eq_true_eq,
      Option.isNone_iff_eq_none] at hcf
    obtain ⟨hm, hrest⟩ := hcf
    unfold applyRule
    by_cases hb : isSubstr "new state = " l <;>
      simp only [hb, Bool.false_eq_true, if_true, if_false, ite_true, ite_false] <;>
    · rcases hrest with ⟨hcode | hcode, hp⟩ | ⟨hcode | hcode, hp⟩ <;> subst hcode
      · rw [if_neg (by decide), if_pos hm, if_neg (by decide), if_neg (by decide),
          if_pos rfl, hp]
      · rw [if_neg (by decide), if_pos hm, if_neg (by decide), if_neg (by decide),
          if_neg (by decide), if_neg (by decide), if_pos rfl, hp]
      · rw [if_neg (by decide), if_pos hm, if_neg (by decide), if_neg (by decide),
          if_neg (by decide), if_neg (by decide), if_neg (by decide), if_pos rfl, hp]
      · rw [if_neg (by decide), if_pos hm, if_neg (by decide), if_neg (by decide),
          if_neg (by decide), if_neg (by decide), if_neg (by decide), if_neg (by decide),
          if_pos rfl, hp]

theorem processLine_captureFails_error (rules : List Rule) (susp : List String)
    (st : LogState) (l : String) (r : Rule) (hr : r ∈ rules)
    (hcf : captureFails r l = true) :
    processLine rules susp st l = .error () := by
  obtain ⟨st₀, heq, _⟩ := processLine_as_fold rules susp st l
  rw [heq]
  exact foldlM_error (applyRule susp l) rules r hr
    (fun s => applyRule_captureFails_error susp l s r hcf) st₀

/-- C3 (amended): a log line whose captured numeric token fails to parse
makes the numeric conversion raise; the exception is not caught (the scan
catches only `UnicodeDecodeError`), so the whole line scan aborts — no
`MALFORMED_RECORD` is recorded and no INVALID status is assigned. -/
theorem C3_amended_parse_failure_aborts_scan (rules : List Rule) (susp : List String)
    (lines : List String) (l : String) (r : Rule)
    (hl : l ∈ lines) (hr : r ∈ rules) (hcf : captureFails r l = true) :
    search_for_log_msg_errors rules susp lines = .error () := by
  unfold search_for_log_msg_errors
  rw [foldlM_error (processLine rules susp) lines l hl
    (fun s => processLine_captureFails_error rules susp s l r hr hcf) initLogState]
  rfl

/-- C3 (counterexample): on the concrete line `TOTAL_CLEANING_TIME abc` the
scan raises (models the uncaught `ValueError`) instead of surfacing a
`MALFORMED_RECORD` condition with status INVALID. -/
theorem C3_counterexample_parse_failure_crashes :
    search_for_log_msg_errors cleaningRules [] ["TOTAL_CLEANING_TIME abc"]
      = .error () := by rfl

/-- Witness for the amended C3 statement at the same concrete input. -/
theorem C3_amended_witness :
    search_for_log_msg_errors [⟨"TOTAL_CLEANING_TIME", RuleDesc.one "TOTAL_CLEANING_TIME"⟩]
      [] ["robot TOTAL_CLEANING_TIME end42"] = .error () :=
  C3_amended_parse_failure_aborts_scan _ [] _ "robot TOTAL_CLEANING_TIME end42"
    ⟨"TOTAL_CLEANING_TIME", RuleDesc.one "TOTAL_CLEANING_TIME"⟩
    (by decide) (by decide) (by decide)

/-! ### `search_for_prox_reading_errors` (bb_parser.py lines 528-656)

One sequential pass over the prox-reading CSV rows; the configured
`PROX_ERROR_FIELDS_OF_INTEREST` table (error code -> field list) dispatches,
per row, to the voltage averager, the I2C bus-error interval tracker, the
stale-TOF-reading tracker and the logging-gap tracker.  Rows are modelled
with their `TimeInMS` timestamp and integer field values (the source applies
`int(...)` to the CSV strings at each access; a missing field or malformed
cell raises and is outside every claim here, so field access is total with
an unreachable default). -/

/-- Generic Python-dict assignment on an assoc list (same as `setVal`, for
arbitrary key/value types). -/
def setPair {α β : Type} [DecidableEq α] (m : List (α × β)) (k : α) (v : β) :
    List (α × β) :=
  match m with
  | [] => [(k, v)]
  | (k', v') :: rest => if k' = k then (k, v) :: rest else (k', v') :: setPair rest k v

/-- Dict lookup (by decidable equality, avoiding `BEq` instances). -/
def lookupPair {α β : Type} [DecidableEq α] (m : List (α × β)) (k : α) : Option β :=
  match m with
  | [] => none
  | (k', v) :: rest => if k' = k then some v else lookupPair rest k

/-- Dict read with default. -/
def lookupD {α β : Type} [DecidableEq α] (m : List (α × β)) (k : α) (d : β) : β :=
  (lookupPair m k).getD d

theorem lookupPair_setPair_self {α β : Type} [DecidableEq α]
    (m : List (α × β)) (k : α) (v : β) : lookupPair (setPair m k v) k = some v := by
  induction m with
  | nil => simp [setPair, lookupPair]
  | cons hd tl ih =>
    obtain ⟨a, b⟩ := hd
    by_cases h : a = k
    · subst h; simp [setPair, lookupPair]
    · simp [setPair, h, lookupPair, ih]

theorem lookupPair_setPair_ne {α β : Type} [DecidableEq α]
    (m : List (α × β)) (k k' : α) (v : β) (h : k' ≠ k) :
    lookupPair (setPair m k v) k' = lookupPair m k' := by
  induction m with
  | nil =>
    have h' : k ≠ k' := fun hh => h hh.symm
    simp [setPair, lookupPair, h']
  | cons hd tl ih =>
    obtain ⟨a, b⟩ := hd
    by_cases ha : a = k
    · subst ha
      simp only [setPair, if_pos rfl, lookupPair]
      rcases eq_or_ne a k' with h' | h'
      · exact absurd h'.symm h
      · simp [h']
    · simp only [setPair, if_neg ha, lookupPair, ih]

/-- Python `hex(n)` for a nonnegative integer. -/
def hexStr (n : Nat) : String := "0x" ++ String.mk (Nat.toDigits 16 n)

/-- One prox CSV row: timestamp (`TimeInMS`) and integer sensor fields. -/
structure ProxRow where
  ts : Int
  fields : List (String × Int)
deriving DecidableEq, Repr

/-- `int(row[f])`; every claim uses rows carrying their fields, so the
Python `KeyError` on an absent field is modelled by an unreachable 0. -/
def getField (row : ProxRow) (f : String) : Int := lookupD row.fields f 0

/-- Lines 596-606: mask each configured field to its 8 MSB, render as a hex
literal and map it through `TOF_ERROR_CODES` (code -> (name, description)),
keeping the last configured field that has a mapped error. -/
def curTofErrorReading (codebook : List (String × (String × String)))
    (fields : List String) (row : ProxRow) : Option String :=
  fields.foldl (fun acc f =>
    let code := hexStr ((0xFF00 : Nat) &&& (getField row f).toNat)
    match codebook.lookup code with
    | some nd => some nd.1
    | none => acc) none

/-- Local state of the I2C bus-error interval tracker (lines 557-561):
`i2c_bus_error_start_time` (sentinel -1), `last_i2c_bus_error`, and the
`i2c_bus_errors` dict start-timestamp -> (error, duration). -/
structure BusState where
  startTime : Int
  lastErr : Option String
  errors : List (Int × (Option String × Int))
deriving DecidableEq, Repr

def initBusState : BusState := { startTime := -1, lastErr := none, errors := [] }

/-- Lines 596-622: the `TOF_SENSOR_ERRORS` branch for one row.  `isLast` is
`i == num_rows - 1`.  Also performs the `error_count[error_code] += 1` of
line 620 on the shared `error_count` dict. -/
def busStep (codebook : List (String × (String × String))) (fields : List String)
    (isLast : Bool) (row : ProxRow) (s : BusState) (ec : ErrMap) : BusState × ErrMap :=
  let cur := curTofErrorReading codebook fields row
  if s.lastErr ≠ cur ∨ isLast = true then
    -- transitioning out of an error state: close the interval -- if its
    -- start passes the `> 0` validity test
    let s :=
      if s.startTime > 0 then
        { s with errors := setPair s.errors s.startTime (s.lastErr, row.ts - s.startTime)
                 lastErr := cur
                 startTime := -1 }
      else s
    -- new instance of an error: count it and open an interval
    if s.startTime < 0 ∧ cur.isSome = true then
      ({ s with startTime := row.ts, lastErr := cur }, bump ec "TOF_SENSOR_ERRORS")
    else (s, ec)
  else (s, ec)

/-- Local state of the stale-reading tracker (lines 564-568): per-field
start timestamp and last reading (sentinels -1) and the
`stale_tof_readings` dict (start, field) -> (value, duration). -/
structure StaleState where
  startTimes : List (String × Int)
  lastReadings : List (String × Int)
  stale : List ((Int × String) × (Int × Int))
deriving DecidableEq, Repr

def initStaleState (fields : List String) : StaleState :=
  { startTimes := fields.map (fun f => (f, -1))
    lastReadings := fields.map (fun f => (f, -1))
    stale := [] }

/-- Lines 625-638: the stale-reading update for a single monitored field. -/
def staleFieldStep (threshold : Int) (isLast : Bool) (row : ProxRow)
    (s : StaleState) (f : String) : StaleState :=
  let reading := getField row f
  if reading ≠ lookupD s.lastReadings f (-1) ∨ reading > 255 ∨ isLast = true then
    let start := lookupD s.startTimes f (-1)
    let dur := row.ts - start
    let s :=
      if dur > threshold ∧ start > 0 then
        { s with stale := setPair s.stale (start, f) (lookupD s.lastReadings f (-1), dur) }
      else s
    { s with lastReadings := setPair s.lastReadings f reading
             startTimes := setPair s.startTimes f row.ts }
  else s

/-- Lines 624-638: the `STALE_TOF_READINGS` branch for one row. -/
def staleStep (threshold : Int) (fields : List String) (isLast : Bool) (row : ProxRow)
    (s : StaleState) : StaleState :=
  fields.foldl (staleFieldStep threshold isLast row) s

/-- `int(q)` truncates toward zero. -/
def pyTrunc (q : Rat) : Int := if 0 ≤ q then q.floor else -((-q).floor)

/-- Whole-pass state: the two trackers plus `prev_timestamp`, the logging
gaps, the voltage accumulator and the shared `error_count`. -/
structure ProxState where
  prevTs : Int
  bus : BusState
  stale : StaleState
  gaps : List Int
  extVoltCounter : Nat
  avgExtVolt : Rat
  errorCount : ErrMap
deriving DecidableEq, Repr

/-- Lines 590-594: the `EXTERNAL_VOLTAGE` branch (runs once the timestamp
passes `base_reconnected_timestamp`). -/
def voltStep (fields : List String) (row : ProxRow) (s : ProxState) : ProxState :=
  let counter := s.extVoltCounter + 1
  let avg := s.avgExtVolt + ((getField row (fields.headD "")) : Rat) / 10
  let ec := if counter = 10 then
      setVal s.errorCount "AVG_EXT_VOLTAGE_AFTER_RECONNECT" (.int (pyTrunc avg))
    else s.errorCount
  { s with extVoltCounter := counter, avgExtVolt := avg, errorCount := ec }

/-- Lines 640-651: the logging-gap branch. -/
def gapStep (gapThreshold : Rat) (row : ProxRow) (s : ProxState) : ProxState :=
  if s.prevTs > 0 then
    let gap := row.ts - s.prevTs
    if (gap : Rat) > gapThreshold then
      { s with gaps := s.gaps ++ [gap], errorCount := bump s.errorCount "PROX_READINGS_LOGGING_GAP" }
    else s
  else s

/-- One iteration of the `for error_code, fields in
self.PROX_ERROR_FIELDS_OF_INTEREST.items()` dispatch (lines 588-651).
The gap branch is an `elif` chained to the stale branch's `if`. -/
def proxCfgStep (codebook : List (String × (String × String))) (staleThr : Int)
    (gapThr : Rat) (base : Int) (isLast : Bool) (row : ProxRow) (s : ProxState)
    (entry : String × List String) : ProxState :=
  let s :=
    if entry.1 = "EXTERNAL_VOLTAGE" ∧ row.ts > base then voltStep entry.2 row s else s
  let s :=
    if entry.1 = "TOF_SENSOR_ERRORS" then
      let be := busStep codebook entry.2 isLast row s.bus s.errorCount
      { s with bus := be.1, errorCount := be.2 }
    else s
  if entry.1 = "STALE_TOF_READINGS" then
    { s with stale := staleStep staleThr entry.2 isLast row s.stale }
  else if entry.1 = "PROX_READINGS_LOGGING_GAP" then gapStep gapThr row s
  else s

/-- The row loop (lines 585-654): `i` is the `enumerate` index, `numRows`
the pre-computed row count; `prev_timestamp` updates after the dispatch. -/
def proxGo (codebook : List (String × (String × String))) (staleThr : Int) (gapThr : Rat)
    (base : Int) (cfg : List (String × List String)) (numRows : Nat) (i : Nat)
    (s : ProxState) : List ProxRow → ProxState
  | [] => s
  | row :: rest =>
    let s' := cfg.foldl
      (proxCfgStep codebook staleThr gapThr base (decide (i = numRows - 1)) row) s
    proxGo codebook staleThr gapThr base cfg numRows (i + 1)
      { s' with prevTs := row.ts } rest

def initProxState (ec : ErrMap) (staleFields : List String) : ProxState :=
  { prevTs := -1
    bus := initBusState
    stale := initStaleState staleFields
    gaps := []
    extVoltCounter := 0
    avgExtVolt := 0
    errorCount := ec }

/-- The whole pass over the prox readings. -/
def search_for_prox_reading_errors (cfg : List (String × List String))
    (codebook : List (String × (String × String))) (staleThr : Int) (gapThr : Rat)
    (base : Int) (ec : ErrMap) (rows : List ProxRow) : ProxState :=
  proxGo codebook staleThr gapThr base cfg rows.length 0
    (initProxState ec (lookupD cfg "STALE_TOF_READINGS" [])) rows

/-- `self.LOGGING_FREQUENCY` (ms between logged data points). -/
def LOGGING_FREQUENCY : Int := 10

/-- `self.STALE_TOF_READING_THRESHOLD = 100 * self.LOGGING_FREQUENCY`. -/
def STALE_TOF_READING_THRESHOLD : Int := 100 * LOGGING_FREQUENCY

/-- `self.LOGGING_GAP_ERROR_THRESHOLD = 1.5 * self.LOGGING_FREQUENCY`. -/
def LOGGING_GAP_ERROR_THRESHOLD : Rat := (3 / 2 : Rat) * (LOGGING_FREQUENCY : Rat)

/-! ### C2, C4, C5: interval closing at stream end -/

theorem busStep_flush (cb : List (String × (String × String))) (fields : List String)
    (row : ProxRow) (s : BusState) (ec : ErrMap) (hstart : 0 < s.startTime) :
    lookupPair (busStep cb fields true row s ec).1.errors s.startTime
      = some (s.lastErr, row.ts - s.startTime) := by
  unfold busStep
  dsimp only
  rw [if_pos (Or.inr rfl), if_pos hstart]
  dsimp only
  by_cases hc : (curTofErrorReading cb fields row).isSome = true
  · rw [if_pos ⟨by norm_num, hc⟩]
    dsimp only
    exact lookupPair_setPair_self _ _ _
  · rw [if_neg (fun hand => hc hand.2)]
    dsimp only
    exact lookupPair_setPair_self _ _ _

theorem staleFieldStep_other_field (thr : Int) (isLast : Bool) (row : ProxRow)
    (s : StaleState) (g f : String) (hgf : g ≠ f) :
    lookupD (staleFieldStep thr isLast row s g).startTimes f (-1)
        = lookupD s.startTimes f (-1)
    ∧ lookupD (staleFieldStep thr isLast row s g).lastReadings f (-1)
        = lookupD s.lastReadings f (-1)
    ∧ ∀ t : Int, lookupPair (staleFieldStep thr isLast row s g).stale (t, f)
        = lookupPair s.stale (t, f) := by
  have hfg : f ≠ g := fun hh => hgf hh.symm
  unfold staleFieldStep
  dsimp only
  by_cases h1 : getField row g ≠ lookupD s.lastReadings g (-1)
      ∨ getField row g > 255 ∨ isLast = true
  · rw [if_pos h1]
    by_cases h2 : row.ts - lookupD s.startTimes g (-1) > thr
        ∧ lookupD s.startTimes g (-1) > 0
    · rw [if_pos h2]
      refine ⟨?_, ?_, ?_⟩
      · show lookupD (setPair s.startTimes g row.ts) f (-1) = _
        unfold lookupD
        rw [lookupPair_setPair_ne _ _ _ _ hfg]
      · show lookupD (setPair s.lastReadings g (getField row g)) f (-1) = _
        unfold lookupD
        rw [lookupPair_setPair_ne _ _ _ _ hfg]
      · intro t
        show lookupPair (setPair s.stale _ _) (t, f) = _
        rw [lookupPair_setPair_ne]
        intro hk
        exact hfg (congrArg Prod.snd hk)
    · rw [if_neg h2]
      refine ⟨?_, ?_, fun t => rfl⟩
      · show lookupD (setPair s.startTimes g row.ts) f (-1) = _
        unfold lookupD
        rw [lookupPair_setPair_ne _ _ _ _ hfg]
      · show lookupD (setPair s.lastReadings g (getField row g)) f (-1) = _
        unfold lookupD
        rw [lookupPair_setPair_ne _ _ _ _ hfg]
  · rw [if_neg h1]
    exact ⟨rfl, rfl, fun t => rfl⟩

theorem staleStep_stale_preserved (thr : Int) (fields : List String) (isLast : Bool)
    (row : ProxRow) (s : StaleState) (f : String) (t : Int) (hf : f ∉ fields) :
    lookupPair (staleStep thr fields isLast row s).stale (t, f)
      = lookupPair s.stale (t, f) := by
  unfold staleStep
  induction fields generalizing s with
  | nil => rfl
  | cons g rest ih =>
    simp only [List.mem_cons, not_or] at hf
    rw [List.foldl_cons]
    rw [ih _ hf.2]
    exact (staleFieldStep_other_field thr isLast row s g f
      (fun hh => hf.1 hh.symm)).2.2 t

/-- Stream-end flush of a held stale reading with a positive start. -/
theorem staleStep_flush (thr : Int) (fields : List String) (row : ProxRow)
    (s : StaleState) (f : String) (hf : f ∈ fields) (hnd : fields.Nodup)
    (hstart : 0 < lookupD s.startTimes f (-1))
    (hdur : thr < row.ts - lookupD s.startTimes f (-1)) :
    lookupPair (staleStep thr fields true row s).stale (lookupD s.startTimes f (-1), f)
      = some (lookupD s.lastReadings f (-1), row.ts - lookupD s.startTimes f (-1)) := by
  induction fields generalizing s with
  | nil => cases hf
  | cons g rest ih =>
    have hstep : staleStep thr (g :: rest) true row s
        = staleStep thr rest true row (staleFieldStep thr true row s g) := by
      unfold staleStep
      rw [List.foldl_cons]
    rw [hstep]
    rcases List.mem_cons.mp hf with hgf | hmem
    · subst hgf
      have hrest : f ∉ rest := (List.nodup_cons.mp hnd).1
      rw [staleStep_stale_preserved thr rest true row _ f _ hrest]
      show lookupPair (staleFieldStep thr true row s f).stale _ = _
      unfold staleFieldStep
      dsimp only
      rw [if_pos (Or.inr (Or.inr rfl)), if_pos ⟨hdur, hstart⟩]
      dsimp only
      exact lookupPair_setPair_self _ _ _
    · by_cases hgf : g = f
      · subst hgf
        have : g ∉ rest := (List.nodup_cons.mp hnd).1
        exact absurd hmem this
      · obtain ⟨h1, h2, _⟩ := staleFieldStep_other_field thr true row s g f hgf
        have hih := ih (staleFieldStep thr true row s g) hmem (List.nodup_cons.mp hnd).2
          (by rw [h1]; exact hstart) (by rw [h1]; exact hdur)
        rw [h1, h2] at hih
        exact hih

/-- C2 (amended): an interval still open when the final row is processed is
closed and recorded at stream end, provided its recorded start timestamp is
positive (the trackers validate the open start with `> 0`, so an interval
whose start timestamp is 0 — or one first opened while processing the final
row — is dropped; the stale tracker additionally requires the held duration
to exceed the threshold). -/
theorem C2_amended_flush_requires_positive_start :
    (∀ (cb : List (String × (String × String))) (fields : List String) (row : ProxRow)
        (s : BusState) (ec : ErrMap),
      0 < s.startTime →
      lookupPair (busStep cb fields true row s ec).1.errors s.startTime
        = some (s.lastErr, row.ts - s.startTime))
    ∧ (∀ (thr : Int) (fields : List String) (row : ProxRow) (s : StaleState) (f : String),
        f ∈ fields → fields.Nodup →
        0 < lookupD s.startTimes f (-1) →
        thr < row.ts - lookupD s.startTimes f (-1) →
        lookupPair (staleStep thr fields true row s).stale (lookupD s.startTimes f (-1), f)
          = some (lookupD s.lastReadings f (-1), row.ts - lookupD s.startTimes f (-1))) :=
  ⟨fun cb fields row s ec h => busStep_flush cb fields row s ec h,
   fun thr fields row s f hf hnd hs hd => staleStep_flush thr fields row s f hf hnd hs hd⟩

/-- Witness for the amended C2 statement: a bus interval opened at 5 closed
at the final row (timestamp 9), and a stale reading held since 2 flushed at
the final row (timestamp 10). -/
theorem C2_amended_witness :
    lookupPair (busStep [] [] true ⟨9, []⟩ ⟨5, some "E", []⟩ []).1.errors 5
        = some (some "E", 4)
    ∧ lookupPair (staleStep 3 ["f"] true ⟨10, [("f", 7)]⟩
          ⟨[("f", 2)], [("f", 7)], []⟩).stale (2, "f") = some (7, 8) := by
  constructor
  · exact C2_amended_flush_requires_positive_start.1 [] [] ⟨9, []⟩ ⟨5, some "E", []⟩ []
      (by decide)
  · exact C2_amended_flush_requires_positive_start.2 3 ["f"] ⟨10, [("f", 7)]⟩
      ⟨[("f", 2)], [("f", 7)], []⟩ "f" (by decide) (by decide) (by decide) (by decide)

/-- The bus-error detector configuration of the pinned C4 scenario:
`A` is a raw reading with masked code 0x100 (mapped to ERR1), `B` has masked
code 0x200 (unmapped). -/
def busDetectCfg : List (String × List String) := [("TOF_SENSOR_ERRORS", ["tof0"])]

def tofCodebook : List (String × (String × String)) := [("0x100", ("ERR1", "i2c bus error"))]

def tofRowA (t : Int) : ProxRow := ⟨t, [("tof0", 256)]⟩

def tofRowB (t : Int) : ProxRow := ⟨t, [("tof0", 512)]⟩

/-- C2 (counterexample): with code A at timestamps 0 and 10, the tracker
opens an interval at timestamp 0 (trigger counter 1) which is still open at
stream end (`startTime = 0`), and the recorded interval dict stays empty —
the opened interval is silently dropped. -/
theorem C2_counterexample_open_interval_dropped :
    (search_for_prox_reading_errors busDetectCfg tofCodebook STALE_TOF_READING_THRESHOLD
        LOGGING_GAP_ERROR_THRESHOLD 0 [] [tofRowA 0, tofRowA 10]).bus.errors = []
    ∧ getD (search_for_prox_reading_errors busDetectCfg tofCodebook
        STALE_TOF_READING_THRESHOLD LOGGING_GAP_ERROR_THRESHOLD 0 []
        [tofRowA 0, tofRowA 10]).errorCount "TOF_SENSOR_ERRORS" (.int 0) = .int 1
    ∧ (search_for_prox_reading_errors busDetectCfg tofCodebook STALE_TOF_READING_THRESHOLD
        LOGGING_GAP_ERROR_THRESHOLD 0 [] [tofRowA 0, tofRowA 10]).bus.startTime = 0 :=
  ⟨rfl, rfl, rfl⟩

/-- C4 (counterexample): on codes [A,A,B,B,A] at timestamps [0,10,20,30,40]
with codebook {A -> ERR1}, the tracker records NO closed interval (not
`(0,"ERR1",10)`) and the trigger counter ends at 1 (not 2): the interval
opened at timestamp 0 fails the `start_time > 0` validity test, so it is
never closed and the tracker never reopens. -/
theorem C4_counterexample_zero_start_input :
    (search_for_prox_reading_errors busDetectCfg tofCodebook STALE_TOF_READING_THRESHOLD
        LOGGING_GAP_ERROR_THRESHOLD 0 []
        [tofRowA 0, tofRowA 10, tofRowB 20, tofRowB 30, tofRowA 40]).bus.errors = []
    ∧ getD (search_for_prox_reading_errors busDetectCfg tofCodebook
        STALE_TOF_READING_THRESHOLD LOGGING_GAP_ERROR_THRESHOLD 0 []
        [tofRowA 0, tofRowA 10, tofRowB 20, tofRowB 30, tofRowA 40]).errorCount
        "TOF_SENSOR_ERRORS" (.int 0) = .int 1 :=
  ⟨rfl, rfl⟩

/-- C4 (amended): on the pinned input the tracker records no interval and
counts 1 trigger, staying stuck on the open start 0.  On the same pattern at
positive timestamps [10,20,30,40,50] it closes `(10, ERR1, 20)` — the
duration runs to the transition row, not to the last row the label was
active — counts 2 triggers, and the second interval opened at 50 is left
open (dropped), not flushed with duration 0. -/
theorem C4_amended_tracker_behaviour :
    ((search_for_prox_reading_errors busDetectCfg tofCodebook STALE_TOF_READING_THRESHOLD
        LOGGING_GAP_ERROR_THRESHOLD 0 []
        [tofRowA 0, tofRowA 10, tofRowB 20, tofRowB 30, tofRowA 40]).bus
      = ⟨0, some "ERR1", []⟩)
    ∧ getD (search_for_prox_reading_errors busDetectCfg tofCodebook
        STALE_TOF_READING_THRESHOLD LOGGING_GAP_ERROR_THRESHOLD 0 []
        [tofRowA 0, tofRowA 10, tofRowB 20, tofRowB 30, tofRowA 40]).errorCount
        "TOF_SENSOR_ERRORS" (.int 0) = .int 1
    ∧ ((search_for_prox_reading_errors busDetectCfg tofCodebook STALE_TOF_READING_THRESHOLD
        LOGGING_GAP_ERROR_THRESHOLD 0 []
        [tofRowA 10, tofRowA 20, tofRowB 30, tofRowB 40, tofRowA 50]).bus
      = ⟨50, some "ERR1", [(10, (some "ERR1", 20))]⟩)
    ∧ getD (search_for_prox_reading_errors busDetectCfg tofCodebook
        STALE_TOF_READING_THRESHOLD LOGGING_GAP_ERROR_THRESHOLD 0 []
        [tofRowA 10, tofRowA 20, tofRowB 30, tofRowB 40, tofRowA 50]).errorCount
        "TOF_SENSOR_ERRORS" (.int 0) = .int 2 :=
  ⟨rfl, rfl, rfl, rfl⟩

/-- The stale-reading detector configuration of the pinned C5 scenario. -/
def staleDetectCfg : List (String × List String) := [("STALE_TOF_READINGS", ["tof0"])]

def staleRow (t : Int) : ProxRow := ⟨t, [("tof0", 5)]⟩

/-- C5 (counterexample): constant value 5 at timestamps [0,50,100,150,4000]
with stale threshold 1000 records NOTHING — the hold that begins at
timestamp 0 fails the `start > 0` validity test at the final row, so the
claimed record `(0, field) -> (5, 4000)` is not produced. -/
theorem C5_counterexample_zero_start_input :
    (search_for_prox_reading_errors staleDetectCfg [] STALE_TOF_READING_THRESHOLD
        LOGGING_GAP_ERROR_THRESHOLD 0 []
        [staleRow 0, staleRow 50, staleRow 100, staleRow 150, staleRow 4000]).stale.stale
      = [] := rfl

/-- C5 (amended): on the pinned input (hold starting at timestamp 0) the
tracker records nothing; with every timestamp shifted to start at a positive
time, [1,51,101,151,4001], it records exactly one entry
`(1, field) -> (5, 4000)`. -/
theorem C5_amended_tracker_behaviour :
    ((search_for_prox_reading_errors staleDetectCfg [] STALE_TOF_READING_THRESHOLD
        LOGGING_GAP_ERROR_THRESHOLD 0 []
        [staleRow 0, staleRow 50, staleRow 100, staleRow 150, staleRow 4000]).stale.stale
      = [])
    ∧ ((search_for_prox_reading_errors staleDetectCfg [] STALE_TOF_READING_THRESHOLD
        LOGGING_GAP_ERROR_THRESHOLD 0 []
        [staleRow 1, staleRow 51, staleRow 101, staleRow 151, staleRow 4001]).stale.stale
      = [((1, "tof0"), (5, 4000))]) :=
  ⟨rfl, rfl⟩

/-! ### `search_for_stationary_errors` (bb_parser.py lines 1356-1418)

Pose rows are subsampled every `READING_SUBSAMPLE_ITERS`-th row; a run of
consecutive subsamples within `STATIONARY_POSE_THRESHOLD` of the last
recorded pose is counted and emitted (in ms) when the robot moves away or
at stream end.  The source compares `np.linalg.norm(cur - last) < 30`; the
embedding compares the squared Euclidean distance with `30^2`, which is
equivalent for exact arithmetic (square root is monotone and the inputs
of every claim are far from the float-rounding boundary). -/

/-- `self.READING_SUBSAMPLE_TIME` (ms). -/
def READING_SUBSAMPLE_TIME : Int := 500

/-- `int(self.READING_SUBSAMPLE_TIME / self.LOGGING_FREQUENCY)`. -/
def READING_SUBSAMPLE_ITERS : Nat := 50

/-- `self.STATIONARY_POSE_THRESHOLD` (mm). -/
def STATIONARY_POSE_THRESHOLD : Int := 30

/-- `self.STATIONARY_TIME_THRESHOLD` (ms). -/
def STATIONARY_TIME_THRESHOLD : Int := 5000

/-- `int(self.STATIONARY_TIME_THRESHOLD / self.READING_SUBSAMPLE_TIME)`. -/
def STATIONARY_TIME_ITERS_THRESHOLD : Nat := 10

/-- One row of `PoseData.csv`: the `smooth_x(mm)`/`smooth_y(mm)` columns. -/
structure PoseRow where
  x : Rat
  y : Rat
deriving DecidableEq, Repr

structure PoseState where
  lastPose : Rat × Rat
  stationaryCount : Nat
  stationaryErrors : List Int
  errorCount : ErrMap
deriving DecidableEq, Repr

/-- Line 1376: the reference pose starts at the origin. -/
def initPoseState (ec : ErrMap) : PoseState :=
  { lastPose := (0, 0), stationaryCount := 0, stationaryErrors := [], errorCount := ec }

/-- Lines 1387-1410: one `enumerate` iteration of the pose loop. -/
def poseStep (cnt : Nat) (row : PoseRow) (s : PoseState) : PoseState :=
  if cnt % READING_SUBSAMPLE_ITERS = 0 then
    let cur : Rat × Rat := (row.x, row.y)
    if (cur.1 - s.lastPose.1) ^ 2 + (cur.2 - s.lastPose.2) ^ 2
        < ((STATIONARY_POSE_THRESHOLD : Rat)) ^ 2 then
      { s with stationaryCount := s.stationaryCount + 1 }
    else
      let s :=
        if s.stationaryCount > STATIONARY_TIME_ITERS_THRESHOLD then
          { s with
            stationaryErrors := s.stationaryErrors
              ++ [(s.stationaryCount : Int) * READING_SUBSAMPLE_TIME]
            errorCount := bump s.errorCount "ROBOT_STATIONARY_ERROR" }
        else s
      { s with stationaryCount := 0, lastPose := cur }
  else s

def stationaryGo (cnt : Nat) (s : PoseState) : List PoseRow → PoseState
  | [] => s
  | row :: rest => stationaryGo (cnt + 1) (poseStep cnt row s) rest

theorem stationaryGo_cons (cnt : Nat) (s : PoseState) (row : PoseRow)
    (rows : List PoseRow) :
    stationaryGo cnt s (row :: rows) = stationaryGo (cnt + 1) (poseStep cnt row s) rows :=
  rfl

/-- Lines 1412-1416: flush a still-open run at stream end. -/
def stationaryFlush (s : PoseState) : List Int × ErrMap :=
  if s.stationaryCount > STATIONARY_TIME_ITERS_THRESHOLD then
    (s.stationaryErrors ++ [(s.stationaryCount : Int) * READING_SUBSAMPLE_TIME],
      bump s.errorCount "ROBOT_STATIONARY_ERROR")
  else (s.stationaryErrors, s.errorCount)

/-- The whole pose pass: returns `stationary_errors` and the updated
`error_count`. -/
def search_for_stationary_errors (ec : ErrMap) (rows : List PoseRow) :
    List Int × ErrMap :=
  stationaryFlush (stationaryGo 0 (initPoseState ec) rows)

/-- Rows that stay within the stationary threshold of the recorded pose only
increment the run counter (once per subsampled index). -/
theorem stationaryGo_const (p : Rat × Rat) (n : Nat) :
    ∀ (cnt : Nat) (s : PoseState),
      (p.1 - s.lastPose.1) ^ 2 + (p.2 - s.lastPose.2) ^ 2
          < ((STATIONARY_POSE_THRESHOLD : Rat)) ^ 2 →
      (stationaryGo cnt s (List.replicate n ⟨p.1, p.2⟩)).stationaryCount
          = s.stationaryCount
            + (List.range n).countP (fun j => (cnt + j) % READING_SUBSAMPLE_ITERS == 0)
        ∧ (stationaryGo cnt s (List.replicate n ⟨p.1, p.2⟩)).lastPose = s.lastPose
        ∧ (stationaryGo cnt s (List.replicate n ⟨p.1, p.2⟩)).stationaryErrors
            = s.stationaryErrors
        ∧ (stationaryGo cnt s (List.replicate n ⟨p.1, p.2⟩)).errorCount = s.errorCount := by
  induction n with
  | zero => intro cnt s _; simp [stationaryGo]
  | succ n ih =>
    intro cnt s hnear
    rw [List.replicate_succ]
    have hgo : stationaryGo cnt s (⟨p.1, p.2⟩ :: List.replicate n ⟨p.1, p.2⟩)
        = stationaryGo (cnt + 1) (poseStep cnt ⟨p.1, p.2⟩ s)
            (List.replicate n ⟨p.1, p.2⟩) := rfl
    rw [hgo]
    have hcount : (List.range (n + 1)).countP
          (fun j => (cnt + j) % READING_SUBSAMPLE_ITERS == 0)
        = (if cnt % READING_SUBSAMPLE_ITERS = 0 then 1 else 0)
          + (List.range n).countP
              (fun j => ((cnt + 1) + j) % READING_SUBSAMPLE_ITERS == 0) := by
      rw [List.range_succ_eq_map, List.countP_cons, List.countP_map]
      have harg : ((fun j => (cnt + j) % READING_SUBSAMPLE_ITERS == 0) ∘ Nat.succ)
          = (fun j => ((cnt + 1) + j) % READING_SUBSAMPLE_ITERS == 0) := by
        funext j
        have : cnt + (j + 1) = (cnt + 1) + j := by omega
        simp [Function.comp, Nat.succ_eq_add_one, this]
      rw [harg]
      by_cases hc : cnt % READING_SUBSAMPLE_ITERS = 0
      · simp [hc]
        omega
      · simp [hc]
    by_cases hc : cnt % READING_SUBSAMPLE_ITERS = 0
    · have hstep : poseStep cnt ⟨p.1, p.2⟩ s
          = { s with stationaryCount := s.stationaryCount + 1 } := by
        unfold poseStep
        rw [if_pos hc]
        dsimp only
        rw [if_pos hnear]
      rw [hstep]
      obtain ⟨h1, h2, h3, h4⟩ := ih (cnt + 1)
        { s with stationaryCount := s.stationaryCount + 1 } hnear
      refine ⟨?_, h2, h3, h4⟩
      rw [h1, hcount]
      simp only [if_pos hc]
      omega
    · have hstep : poseStep cnt ⟨p.1, p.2⟩ s = s := by
        unfold poseStep
        rw [if_neg hc]
      rw [hstep]
      obtain ⟨h1, h2, h3, h4⟩ := ih (cnt + 1) s hnear
      refine ⟨?_, h2, h3, h4⟩
      rw [h1, hcount]
      simp [hc]

set_option maxRecDepth 16000 in
/-- 1951 rows give subsample indices 0, 50, ..., 1950: 40 subsamples. -/
theorem stationary_replicate_1951_near (p : Rat × Rat) (ec : ErrMap)
    (hp : (p.1 - 0) ^ 2 + (p.2 - 0) ^ 2 < ((STATIONARY_POSE_THRESHOLD : Rat)) ^ 2) :
    search_for_stationary_errors ec (List.replicate 1951 ⟨p.1, p.2⟩)
      = ([20000], bump ec "ROBOT_STATIONARY_ERROR") := by
  unfold search_for_stationary_errors
  obtain ⟨h1, _, h3, h4⟩ := stationaryGo_const p 1951 0 (initPoseState ec) hp
  have hcp : (List.range 1951).countP
      (fun j => (0 + j) % READING_SUBSAMPLE_ITERS == 0) = 40 := by decide
  rw [hcp] at h1
  unfold stationaryFlush
  rw [h1, h3, h4]
  rw [if_pos (by norm_num [STATIONARY_TIME_ITERS_THRESHOLD, initPoseState])]
  norm_num [initPoseState, READING_SUBSAMPLE_TIME]

set_option maxRecDepth 16000 in
/-- A constant position at distance ≥ 30 from the origin: the first
subsample re-anchors the reference pose, so only 39 subsamples count. -/
theorem stationary_replicate_1951_far (p : Rat × Rat) (ec : ErrMap)
    (hp : ¬ ((p.1 - 0) ^ 2 + (p.2 - 0) ^ 2 < ((STATIONARY_POSE_THRESHOLD : Rat)) ^ 2)) :
    search_for_stationary_errors ec (List.replicate 1951 ⟨p.1, p.2⟩)
      = ([19500], bump ec "ROBOT_STATIONARY_ERROR") := by
  unfold search_for_stationary_errors
  have h1951 : (1951 : Nat) = 1950 + 1 := by norm_num
  have hgo : stationaryGo 0 (initPoseState ec) (List.replicate 1951 ⟨p.1, p.2⟩)
      = stationaryGo 1 (poseStep 0 ⟨p.1, p.2⟩ (initPoseState ec))
          (List.replicate 1950 ⟨p.1, p.2⟩) := by
    rw [h1951, List.replicate_succ, stationaryGo_cons]
  have hstep : poseStep 0 ⟨p.1, p.2⟩ (initPoseState ec)
      = { lastPose := (p.1, p.2), stationaryCount := 0, stationaryErrors := [],
          errorCount := ec } := by
    have hp' : ¬ ((p.1 - (initPoseState ec).lastPose.1) ^ 2
        + (p.2 - (initPoseState ec).lastPose.2) ^ 2
        < ((STATIONARY_POSE_THRESHOLD : Rat)) ^ 2) := hp
    have hcnt : ¬ ((initPoseState ec).stationaryCount > STATIONARY_TIME_ITERS_THRESHOLD) := by
      show ¬ ((0 : Nat) > (10 : Nat))
      norm_num
    unfold poseStep
    rw [if_pos (by norm_num : (0 : Nat) % READING_SUBSAMPLE_ITERS = 0)]
    dsimp only
    rw [if_neg hp', if_neg hcnt]
    rfl
  rw [hgo, hstep]
  have hnear : (p.1 - ((p.1, p.2) : Rat × Rat).1) ^ 2 + (p.2 - ((p.1, p.2) : Rat × Rat).2) ^ 2
      < ((STATIONARY_POSE_THRESHOLD : Rat)) ^ 2 := by
    norm_num [STATIONARY_POSE_THRESHOLD]
  obtain ⟨h1, _, h3, h4⟩ := stationaryGo_const p 1950 1
    { lastPose := (p.1, p.2), stationaryCount := 0, stationaryErrors := [],
      errorCount := ec } hnear
  have hcp : (List.range 1950).countP
      (fun j => (1 + j) % READING_SUBSAMPLE_ITERS == 0) = 39 := by decide
  rw [hcp] at h1
  unfold stationaryFlush
  rw [h1, h3, h4]
  rw [if_pos (by norm_num [STATIONARY_TIME_ITERS_THRESHOLD])]
  norm_num [READING_SUBSAMPLE_TIME]

/-- C7 (amended): 40 constant-position subsamples (1951 rows at subsample
period 500 over the native 10ms rows, minimum run 10) flush exactly one
StationaryPeriod at stream end, but its duration depends on the position:
20000 when the position is within the 30mm threshold of the detector's
initial origin reference pose, 19500 otherwise (the first subsample
re-anchors the reference and resets the run counter). -/
theorem C7_amended_stationary_duration (p : Rat × Rat) (ec : ErrMap) :
    search_for_stationary_errors ec (List.replicate 1951 ⟨p.1, p.2⟩)
      = (if (p.1 - 0) ^ 2 + (p.2 - 0) ^ 2 < ((STATIONARY_POSE_THRESHOLD : Rat)) ^ 2
          then [20000] else [19500],
        bump ec "ROBOT_STATIONARY_ERROR") := by
  by_cases hp : (p.1 - 0) ^ 2 + (p.2 - 0) ^ 2 < ((STATIONARY_POSE_THRESHOLD : Rat)) ^ 2
  · rw [if_pos hp]
    exact stationary_replicate_1951_near p ec hp
  · rw [if_neg hp]
    exact stationary_replicate_1951_far p ec hp

/-- Witness for the amended C7 statement at two concrete positions. -/
theorem C7_amended_witness :
    search_for_stationary_errors [] (List.replicate 1951 (⟨0, 0⟩ : PoseRow))
        = ([20000], bump [] "ROBOT_STATIONARY_ERROR")
    ∧ search_for_stationary_errors [] (List.replicate 1951 (⟨100, 100⟩ : PoseRow))
        = ([19500], bump [] "ROBOT_STATIONARY_ERROR") := by
  constructor
  · have h := C7_amended_stationary_duration ((0 : Rat), (0 : Rat)) []
    rw [if_pos (by norm_num [STATIONARY_POSE_THRESHOLD])] at h
    exact h
  · have h := C7_amended_stationary_duration ((100 : Rat), (100 : Rat)) []
    rw [if_neg (by norm_num [STATIONARY_POSE_THRESHOLD])] at h
    exact h

/-- C7 (counterexample): at the constant position (100, 100) the single
flushed StationaryPeriod has duration 19500, not 20000 — the claim fails
for this position. -/
theorem C7_counterexample_offset_position :
    (search_for_stationary_errors [] (List.replicate 1951 (⟨100, 100⟩ : PoseRow))).1
        = [19500]
    ∧ ([(19500 : Int)] ≠ [20000]) := by
  constructor
  · rw [stationary_replicate_1951_far ((100 : Rat), (100 : Rat)) []
      (by norm_num [STATIONARY_POSE_THRESHOLD])]
  · decide

/-! ### `process_bb_files`: per-run autonomy aggregation, transition failures
and the cross-run rollup (bb_parser.py lines 1560-1853)

The model covers the data flow the claims are about: `started_where`
derivation (lines 1707-1715), the per-run `error_count.items()` loop's
autonomy effects (lines 1717-1740), the qualifying-run counter (1742-1744),
the composite column additions (1746-1752), the per-run transition check
(1820-1824) and the cross-run percentage rollup (1832-1847).  The
`summary_row`/CSV writes, plotting, and `overall_error_count` display
totals are output serialization by excluded collaborators and are omitted.
`autonomy_statistics` (a `defaultdict` of `defaultdict(int)` per
(started_where, build)) is flattened to an assoc list keyed by the pair. -/

/-- An entry of the `autonomy_row` list: Python strings (columns 0 and 1)
or numeric count values. -/
inductive Cell where
  | str (s : String)
  | val (v : Value)
deriving DecidableEq, Repr

/-- The autonomy configuration (`AUTONOMY_CSV_HEADER`,
`AUTONOMY_COLUMN_ADDITIONS`, `AUTONOMY_TRANSITIONS`). -/
structure AutonomyCfg where
  header : List String
  additions : List (String × List String)
  transitions : List (String × (String × String))
deriving DecidableEq, Repr

/-- `{header: idx for idx, header in enumerate(self.AUTONOMY_CSV_HEADER)}`
(Data_Input.py line 31): later duplicates overwrite earlier ones. -/
def colIdxMap (header : List String) : List (String × Nat) :=
  header.enum.foldl (fun m p => setPair m p.2 p.1) []

/-- `self.AUTONOMY_CSV_ERROR_TO_COL_IDX[c]`; `none` is the `KeyError`. -/
def colIdx (header : List String) (c : String) : Option Nat :=
  lookupPair (colIdxMap header) c

/-- A `defaultdict(int)` read `m[k]`: returns the value and the map, with
the key inserted (as 0) when absent — CPython inserts on `__getitem__`. -/
def dGet (m : ErrMap) (k : String) : Value × ErrMap :=
  match m.lookup k with
  | some v => (v, m)
  | none => (.int 0, setVal m k (.int 0))

/-- Lines 1707-1715: derive the run's start location.  The defaultdict
reads insert the probed keys, so the updated `error_count` is returned. -/
def startedWhere (ec : ErrMap) : String × ErrMap :=
  let r1 := dGet ec "STARTED_ON_BASE"
  if 1 ≤ r1.1.toRat then ("ON_BASE", r1.2)
  else
    let r2 := dGet r1.2 "STARTED_OFF_BASE"
    if 1 ≤ r2.1.toRat then ("OFF_BASE", r2.2)
    else
      let r3 := dGet r2.2 "STARTED_ON_BASE_UNDOCKING"
      if 1 ≤ r3.1.toRat then ("ON_BASE", r3.2) else ("OFF_BASE", r3.2)

/-- Per-bucket statistics: event code (or `"count"`) -> int. -/
abbrev BucketStats := List (String × Int)

/-- `autonomy_statistics`, keyed by (started_where, build). -/
abbrev Stats := List ((String × String) × BucketStats)

/-- `autonomy_statistics[bk][k] += 1` (nested defaultdicts). -/
def bumpStat (stats : Stats) (bk : String × String) (k : String) : Stats :=
  let b := lookupD stats bk []
  setPair stats bk (setPair b k (lookupD b k 0 + 1))

/-- Python `a + b` for `error_count` values (the `sum(...)` at line 1747). -/
def Value.addV : Value → Value → Value
  | .int a,  .int b  => .int (a + b)
  | .int a,  .bool b => .int (a + (if b then 1 else 0))
  | .bool a, .int b  => .int ((if a then 1 else 0) + b)
  | .bool a, .bool b => .int ((if a then 1 else 0) + (if b then 1 else 0))
  | a, b => .num (a.toRat + b.toRat)

/-- Lines 1722-1734, autonomy effects: for every `error_count` item that is
not a terminal status and is an autonomy column, bump the bucket's trigger
counter and write the count into the run's `autonomy_row`.  (The guarded
`colIdx` lookup cannot miss — the code is in the header.) -/
def runItemsFold (cfg : AutonomyCfg) (sw build : String) (stats : Stats)
    (row : List Cell) (ec : ErrMap) : Stats × List Cell :=
  ec.foldl (fun acc kv =>
    if kv.1 = "PASS" ∨ kv.1 = "FAIL" ∨ kv.1 = "INVALID" then acc
    else if kv.1 ∈ cfg.header then
      (bumpStat acc.1 (sw, build) kv.1,
        match colIdx cfg.header kv.1 with
        | some i => acc.2.set i (.val kv.2)
        | none => acc.2)
    else acc) (stats, row)

/-- `sum([error_count[col] for col in cols_to_add])` (line 1747): the
defaultdict reads insert absent keys as 0. -/
def sumValues (ec : ErrMap) (cols : List String) : Value × ErrMap :=
  cols.foldl (fun acc c =>
    let r := dGet acc.2 c
    (acc.1.addV r.1, r.2)) (.int 0, ec)

/-- Lines 1746-1752: composite column additions.  `.error ()` is the
`KeyError` when an addition column is not in the header. -/
def additionsFold (cfg : AutonomyCfg) (sw build : String) :
    Stats × List Cell × ErrMap → List (String × List String) →
      Except Unit (Stats × List Cell × ErrMap)
  | acc, [] => .ok acc
  | acc, (acol, cols) :: rest =>
    let sv := sumValues acc.2.2 cols
    match colIdx cfg.header acol with
    | none => .error ()
    | some i =>
      let row' := acc.2.1.set i (.val sv.1)
      let stats' := if 1 ≤ sv.1.toRat then bumpStat acc.1 (sw, build) acol else acc.1
      additionsFold cfg sw build (stats', row', sv.2) rest

/-- One run's aggregation (lines 1593-1598, 1614, 1707-1752):
initialize the `autonomy_row` (log path, build, zeros), derive the start
location, apply the items loop, count the qualifying run, apply the
composite additions. -/
def processRun (cfg : AutonomyCfg) (log build : String) (stats : Stats)
    (ec0 : ErrMap) : Except Unit (Stats × List Cell × ErrMap) :=
  let swec := startedWhere ec0
  let row0 := ((List.replicate cfg.header.length (Cell.val (.int 0))).set 0
      (.str log)).set 1 (.str build)
  -- line 1717: dead in practice — the startedWhere reads insert keys
  if swec.2.isEmpty then .ok (stats, row0, swec.2)
  else
    let sr := runItemsFold cfg swec.1 build stats row0 swec.2
    let stats1 :=
      if hasKey swec.2 "CLEANING_START" || hasKey swec.2 "SUSPENDED_CHARGING_START" then
        bumpStat sr.1 (swec.1, build) "count"
      else sr.1
    additionsFold cfg swec.1 build (stats1, sr.2, swec.2) cfg.additions

/-- `autonomy_row[i] >= 1`: raises `TypeError` on the string columns. -/
def cellGE1 : Cell → Except Unit Bool
  | .val v => .ok (decide (1 ≤ v.toRat))
  | .str _ => .error ()

/-- `autonomy_row[j] == 0`: on a string this is `False`, not an error. -/
def cellEQ0 : Cell → Bool
  | .val v => decide (v.toRat = 0)
  | .str _ => false

/-- Lines 1820-1824: for each configured transition pair, if the run's row
shows `start_state >= 1 and end_state == 0`, write a transition row
(identifying the run by `autonomy_row[0]`/`autonomy_row[1]`).  The `and`
short-circuits, so `idx[end_state]` is only touched when the start fired. -/
def emitGo (cfg : AutonomyCfg) (row : List Cell)
    (acc : List (String × Cell × Cell)) :
    List (String × (String × String)) → Except Unit (List (String × Cell × Cell))
  | [] => .ok acc
  | t :: ts =>
    match colIdx cfg.header t.2.1 with
    | none => .error ()
    | some i =>
      match cellGE1 (row.getD i (.val (.int 0))) with
      | .error _ => .error ()
      | .ok a =>
        if a then
          match colIdx cfg.header t.2.2 with
          | none => .error ()
          | some j =>
            if cellEQ0 (row.getD j (.val (.int 0))) then
              emitGo cfg row
                (acc ++ [(t.1, row.getD 0 (.val (.int 0)), row.getD 1 (.val (.int 0)))]) ts
            else emitGo cfg row acc ts
        else emitGo cfg row acc ts

def emitTransitions (cfg : AutonomyCfg) (row : List Cell) :
    Except Unit (List (String × Cell × Cell)) :=
  emitGo cfg row [] cfg.transitions

/-- Lines 1840-1845 for one bucket: each non-`"count"` event's trigger count
divided by the bucket's qualifying-run count.  `.error ()` models the
`ZeroDivisionError` (no zero guard) and the `KeyError` of the column
lookup; the division happens first, as in the source. -/
def rollupBucket (cfg : AutonomyCfg) (b : BucketStats) :
    Except Unit (List (String × Rat)) :=
  b.foldlM (fun acc kv =>
    if kv.1 = "count" then .ok acc
    else
      let total := lookupD b "count" 0
      if total = 0 then .error ()
      else
        match colIdx cfg.header kv.1 with
        | none => .error ()
        | some _ => .ok (acc ++ [(kv.1, (kv.2 : Rat) / (total : Rat) * 100)])) []

/-- Lines 1832-1847: the cross-run rollup over every bucket. -/
def computeRollup (cfg : AutonomyCfg) (stats : Stats) :
    Except Unit (List ((String × String) × List (String × Rat))) :=
  stats.foldlM (fun acc bucket =>
    match rollupBucket cfg bucket.2 with
    | .error e => .error e
    | .ok r => .ok (acc ++ [(bucket.1, r)])) []

/-- C9: the cross-run percentage derivation has no zero guard: any bucket
holding a per-event trigger entry whose qualifying-run count is 0 (the
`"count"` key absent or zero) makes the rollup raise a division-by-zero
error, aborting the batch instead of producing a percentage. -/
theorem C9_rollup_divides_without_zero_guard (cfg : AutonomyCfg) (stats : Stats)
    (bk : String × String) (b : BucketStats) (k : String) (v : Int)
    (hb : (bk, b) ∈ stats) (hk : (k, v) ∈ b) (hknc : ¬(k = "count"))
    (hcount : lookupD b "count" 0 = 0) :
    computeRollup cfg stats = .error () := by
  have hbkt : rollupBucket cfg b = .error () := by
    unfold rollupBucket
    refine foldlM_error _ b (k, v) hk ?_ []
    intro acc2
    dsimp only
    rw [if_neg hknc, hcount, if_pos rfl]
  unfold computeRollup
  refine foldlM_error _ stats (bk, b) hb ?_ []
  intro acc
  dsimp only
  rw [hbkt]

/-- A small autonomy configuration for the concrete C9 scenario. -/
def demoCfg : AutonomyCfg :=
  ⟨["LOG_NAME", "BUILD_VERSION", "DOCKING", "CLEANING_START"], [], []⟩

/-- Witness for C9: one run contributes the non-zero tracked code `DOCKING`
but never set a cleaning-started or suspended-charging indicator, so its
bucket has a trigger entry and qualifying count 0; the rollup then aborts. -/
theorem C9_witness :
    processRun demoCfg "log1" "1.0" [] [("DOCKING", Value.int 2)]
      = .ok ([(("OFF_BASE", "1.0"), [("DOCKING", 1)])],
          ([Cell.str "log1", Cell.str "1.0", Cell.val (.int 2), Cell.val (.int 0)],
           [("DOCKING", .int 2), ("STARTED_ON_BASE", .int 0), ("STARTED_OFF_BASE", .int 0),
            ("STARTED_ON_BASE_UNDOCKING", .int 0)]))
    ∧ computeRollup demoCfg [(("OFF_BASE", "1.0"), [("DOCKING", 1)])] = .error () := by
  refine ⟨by rfl, ?_⟩
  exact C9_rollup_divides_without_zero_guard demoCfg _ ("OFF_BASE", "1.0")
    [("DOCKING", 1)] "DOCKING" 1 (by decide) (by decide) (by decide) (by decide)

/-! ### C8: the per-run transition check -/

theorem getD_set {α : Type} (l : List α) (i j : Nat) (a d : α) :
    (l.set i a).getD j d = if i = j ∧ j < l.length then a else l.getD j d := by
  induction l generalizing i j with
  | nil => simp
  | cons x xs ih =>
    cases i with
    | zero =>
      cases j with
      | zero => simp
      | succ j => simp
    | succ i =>
      cases j with
      | zero => simp
      | succ j =>
        show (xs.set i a).getD j d = _
        rw [ih i j]
        by_cases h1 : i = j ∧ j < xs.length
        · rw [if_pos h1, if_pos ⟨by omega, by simp; omega⟩]
        · rw [if_neg h1, if_neg (fun h2 => h1 ⟨by omega, by
            have := h2.2; simp at this; omega⟩)]
          simp

theorem getD_replicate {α : Type} (n j : Nat) (a d : α) :
    (List.replicate n a).getD j d = if j < n then a else d := by
  induction n generalizing j with
  | zero => simp
  | succ n ih =>
    cases j with
    | zero => simp [List.replicate_succ]
    | succ j =>
      rw [List.replicate_succ]
      show (List.replicate n a).getD j d = _
      rw [ih j]
      by_cases h : j < n
      · rw [if_pos h, if_pos (by omega)]
      · rw [if_neg h, if_neg (by omega)]

theorem colIdxFold_some (l : List (Nat × String)) :
    ∀ (m : List (String × Nat)) (c : String) (i : Nat),
      lookupPair (l.foldl (fun m p => setPair m p.2 p.1) m) c = some i →
      (i, c) ∈ l ∨ lookupPair m c = some i := by
  induction l with
  | nil => intro m c i h; exact Or.inr h
  | cons p rest ih =>
    intro m c i h
    rw [List.foldl_cons] at h
    rcases ih _ c i h with hmem | hlk
    · exact Or.inl (List.mem_cons_of_mem p hmem)
    · rcases eq_or_ne c p.2 with hc | hc
      · subst hc
        rw [lookupPair_setPair_self] at hlk
        cases hlk
        exact Or.inl (List.mem_cons_self _ _)
      · rw [lookupPair_setPair_ne _ _ _ _ hc] at hlk
        exact Or.inr hlk

theorem colIdxFold_none (l : List (Nat × String)) :
    ∀ (m : List (String × Nat)) (c : String),
      lookupPair (l.foldl (fun m p => setPair m p.2 p.1) m) c = none →
      (∀ p ∈ l, p.2 ≠ c) := by
  induction l with
  | nil => intro m c _ p hp; cases hp
  | cons q rest ih =>
    intro m c h p hp
    rw [List.foldl_cons] at h
    rcases List.mem_cons.mp hp with hq | hq
    · subst hq
      intro hc
      subst hc
      have := ih _ p.2 h
      -- p.2 survives in the accumulator unless overwritten; look it up directly
      have hlk : lookupPair ((rest).foldl (fun m p => setPair m p.2 p.1)
          (setPair m p.2 p.1)) p.2 = none := h
      -- if the fold result lookup is none, the accumulator lookup is none too
      have haux : ∀ (l' : List (Nat × String)) (m' : List (String × Nat)) (c' : String),
          lookupPair (l'.foldl (fun m p => setPair m p.2 p.1) m') c' = none →
          lookupPair m' c' = none := by
        intro l'
        induction l' with
        | nil => intro m' c' h'; exact h'
        | cons r rest' ih' =>
          intro m' c' h'
          rw [List.foldl_cons] at h'
          have := ih' _ _ h'
          rcases eq_or_ne c' r.2 with hcr | hcr
          · subst hcr
            rw [lookupPair_setPair_self] at this
            cases this
          · rw [lookupPair_setPair_ne _ _ _ _ hcr] at this
            exact this
      have := haux rest _ p.2 hlk
      rw [lookupPair_setPair_self] at this
      cases this
    · exact ih _ c h p hq

/-- A successful column lookup gives a column inside the header. -/
theorem colIdx_some_facts (header : List String) (c : String) (i : Nat)
    (h : colIdx header c = some i) : c ∈ header ∧ i < header.length := by
  unfold colIdx colIdxMap at h
  rcases colIdxFold_some header.enum [] c i h with hmem | hlk
  · have hg := List.mk_mem_enum_iff_getElem?.mp hmem
    obtain ⟨hlt, he⟩ := List.getElem?_eq_some.mp hg
    exact ⟨he ▸ List.getElem_mem hlt, hlt⟩
  · cases hlk

/-- A header column always has an index in the column map. -/
theorem colIdx_isSome_of_mem (header : List String) (c : String) (hc : c ∈ header) :
    (colIdx header c).isSome := by
  cases hcol : colIdx header c with
  | some i => rfl
  | none =>
    unfold colIdx colIdxMap at hcol
    have hall := colIdxFold_none header.enum [] c hcol
    obtain ⟨i, hlt, he⟩ := List.getElem_of_mem hc
    have hi : header[i]? = some c := by
      rw [List.getElem?_eq_getElem hlt, he]
    exact absurd rfl (hall (i, c) (List.mk_mem_enum_iff_getElem?.mpr hi))

/-- A defaultdict read never changes the observable counts (an absent key
is stored as the default 0). -/
theorem dGet_getD (m : ErrMap) (k x : String) :
    getD (dGet m k).2 x (.int 0) = getD m x (.int 0) := by
  unfold dGet
  cases hl : m.lookup k with
  | some v => rfl
  | none =>
    dsimp only
    rcases eq_or_ne x k with h | h
    · subst h
      rw [getD_setVal_self]
      unfold getD
      rw [hl]
    · rw [getD_setVal_ne _ _ _ _ _ h]

theorem dGet_nodup (m : ErrMap) (k : String) (h : (m.map Prod.fst).Nodup) :
    (((dGet m k).2).map Prod.fst).Nodup := by
  unfold dGet
  cases m.lookup k with
  | some v => exact h
  | none => exact nodup_keys_setVal m k _ h

theorem startedWhere_getD (ec : ErrMap) (x : String) :
    getD (startedWhere ec).2 x (.int 0) = getD ec x (.int 0) := by
  unfold startedWhere
  dsimp only
  by_cases h1 : 1 ≤ (dGet ec "STARTED_ON_BASE").1.toRat
  · rw [if_pos h1]
    exact dGet_getD ec _ x
  · rw [if_neg h1]
    by_cases h2 : 1 ≤ (dGet (dGet ec "STARTED_ON_BASE").2 "STARTED_OFF_BASE").1.toRat
    · rw [if_pos h2]
      rw [dGet_getD, dGet_getD]
    · rw [if_neg h2]
      by_cases h3 : 1 ≤ (dGet (dGet (dGet ec "STARTED_ON_BASE").2 "STARTED_OFF_BASE").2
          "STARTED_ON_BASE_UNDOCKING").1.toRat
      · rw [if_pos h3]
        rw [dGet_getD, dGet_getD, dGet_getD]
      · rw [if_neg h3]
        rw [dGet_getD, dGet_getD, dGet_getD]

theorem startedWhere_nodup (ec : ErrMap) (h : (ec.map Prod.fst).Nodup) :
    (((startedWhere ec).2).map Prod.fst).Nodup := by
  unfold startedWhere
  dsimp only
  by_cases h1 : 1 ≤ (dGet ec "STARTED_ON_BASE").1.toRat
  · rw [if_pos h1]
    exact dGet_nodup ec _ h
  · rw [if_neg h1]
    by_cases h2 : 1 ≤ (dGet (dGet ec "STARTED_ON_BASE").2 "STARTED_OFF_BASE").1.toRat
    · rw [if_pos h2]
      exact dGet_nodup _ _ (dGet_nodup ec _ h)
    · rw [if_neg h2]
      by_cases h3 : 1 ≤ (dGet (dGet (dGet ec "STARTED_ON_BASE").2 "STARTED_OFF_BASE").2
          "STARTED_ON_BASE_UNDOCKING").1.toRat
      · rw [if_pos h3]
        exact dGet_nodup _ _ (dGet_nodup _ _ (dGet_nodup ec _ h))
      · rw [if_neg h3]
        exact dGet_nodup _ _ (dGet_nodup _ _ (dGet_nodup ec _ h))

/-- If a key is absent after a defaultdict read, its count was the default. -/
theorem getD_of_hasKey_false (m : ErrMap) (k : String) (h : hasKey m k = false) :
    getD m k (.int 0) = .int 0 := by
  unfold hasKey at h
  unfold getD
  cases hl : m.lookup k with
  | none => rfl
  | some v => rw [hl] at h; simp at h

theorem hasKey_cons (a : String) (b : Value) (tl : ErrMap) (k : String) :
    hasKey ((a, b) :: tl) k = (if k = a then true else hasKey tl k) := by
  unfold hasKey
  rw [lookup_cons]
  rcases eq_or_ne k a with h | h
  · rw [if_pos h, if_pos h]
    rfl
  · rw [if_neg h, if_neg h]

theorem getD_cons (a : String) (b : Value) (tl : ErrMap) (k : String) (d : Value) :
    getD ((a, b) :: tl) k d = (if k = a then b else getD tl k d) := by
  unfold getD
  rw [lookup_cons]
  rcases eq_or_ne k a with h | h
  · rw [if_pos h, if_pos h]
  · rw [if_neg h, if_neg h]

/-- All data cells (index ≥ 2) of an autonomy row are numeric values. -/
def rowVals (row : List Cell) : Prop :=
  ∀ j, 2 ≤ j → ∃ v, row.getD j (Cell.val (.int 0)) = Cell.val v

theorem rowVals_set (row : List Cell) (i : Nat) (v : Value) (h : rowVals row) :
    rowVals (row.set i (.val v)) := by
  intro j hj
  rw [getD_set]
  by_cases hc : i = j ∧ j < row.length
  · rw [if_pos hc]
    exact ⟨v, rfl⟩
  · rw [if_neg hc]
    exact h j hj

theorem rowVals_row0 (cfg : AutonomyCfg) (log build : String) :
    rowVals (((List.replicate cfg.header.length (Cell.val (.int 0))).set 0
      (.str log)).set 1 (.str build)) := by
  intro j hj
  rw [getD_set, if_neg (by omega), getD_set, if_neg (by omega), getD_replicate]
  by_cases h : j < cfg.header.length
  · rw [if_pos h]
    exact ⟨.int 0, rfl⟩
  · rw [if_neg h]
    exact ⟨.int 0, rfl⟩

/-- The items loop writes exactly the run's stored count into column `i`
of the autonomy row (and preserves the row length). -/
theorem runItemsFold_getD (cfg : AutonomyCfg) (sw build : String) (c : String) (i : Nat)
    (hci : colIdx cfg.header c = some i)
    (hinj : ∀ x ∈ cfg.header, ¬(x = c) → ¬(colIdx cfg.header x = some i))
    (hcPFI : ¬(c = "PASS" ∨ c = "FAIL" ∨ c = "INVALID")) :
    ∀ (ec : ErrMap) (stats : Stats) (row : List Cell),
      (ec.map Prod.fst).Nodup → i < row.length →
      (runItemsFold cfg sw build stats row ec).2.length = row.length
      ∧ (runItemsFold cfg sw build stats row ec).2.getD i (.val (.int 0))
          = (if hasKey ec c then Cell.val (getD ec c (.int 0))
            else row.getD i (.val (.int 0))) := by
  intro ec
  induction ec with
  | nil =>
    intro stats row _ _
    refine ⟨rfl, ?_⟩
    have h0 : hasKey ([] : ErrMap) c = false := rfl
    rw [h0]
    simp [runItemsFold]
  | cons kv rest ih =>
    intro stats row hnd hlt
    obtain ⟨a, b⟩ := kv
    rw [List.map_cons] at hnd
    have hnd2 := List.nodup_cons.mp hnd
    have hnotin : a ∉ rest.map Prod.fst := hnd2.1
    have hnd' : (rest.map Prod.fst).Nodup := hnd2.2
    by_cases hPFI : a = "PASS" ∨ a = "FAIL" ∨ a = "INVALID"
    · have hcons : runItemsFold cfg sw build stats row ((a, b) :: rest)
          = runItemsFold cfg sw build stats row rest := by
        unfold runItemsFold
        rw [List.foldl_cons]
        dsimp only
        rw [if_pos hPFI]
      rw [hcons]
      have hca : ¬(c = a) := fun h => hcPFI (by subst h; exact hPFI)
      obtain ⟨hl, hg⟩ := ih stats row hnd' hlt
      refine ⟨hl, ?_⟩
      rw [hg, hasKey_cons, if_neg hca, getD_cons, if_neg hca]
    · by_cases hmem : a ∈ cfg.header
      · have hsome := colIdx_isSome_of_mem cfg.header a hmem
        cases hcol : colIdx cfg.header a with
        | none => rw [hcol] at hsome; cases hsome
        | some ix =>
          have hcons : runItemsFold cfg sw build stats row ((a, b) :: rest)
              = runItemsFold cfg sw build (bumpStat stats (sw, build) a)
                  (row.set ix (.val b)) rest := by
            unfold runItemsFold
            rw [List.foldl_cons]
            dsimp only
            rw [if_neg hPFI, if_pos hmem, hcol]
          rw [hcons]
          rcases eq_or_ne a c with hac | hac
          · subst hac
            have hix : ix = i := by
              rw [hci] at hcol
              exact (Option.some.inj hcol).symm
            subst hix
            obtain ⟨hl, hg⟩ := ih (bumpStat stats (sw, build) a) (row.set ix (.val b))
              hnd' (by rw [List.length_set]; exact hlt)
            refine ⟨by rw [hl, List.length_set], ?_⟩
            rw [hg]
            have hkr : hasKey rest a = false := by
              unfold hasKey
              rw [lookup_eq_none_of_not_mem_keys rest a hnotin]
              rfl
            rw [hkr, hasKey_cons, if_pos rfl, getD_cons, if_pos rfl]
            simp only [Bool.false_eq_true, if_false, if_true]
            rw [getD_set, if_pos ⟨rfl, hlt⟩]
          · have hixne : ¬(ix = i) := by
              intro h
              exact hinj a hmem (fun hh => hac hh) (h ▸ hcol)
            obtain ⟨hl, hg⟩ := ih (bumpStat stats (sw, build) a) (row.set ix (.val b))
              hnd' (by rw [List.length_set]; exact hlt)
            refine ⟨by rw [hl, List.length_set], ?_⟩
            rw [hg]
            have hca : ¬(c = a) := fun h => hac h.symm
            rw [hasKey_cons, if_neg hca, getD_cons, if_neg hca]
            rw [getD_set,
              if_neg (show ¬(ix = i ∧ i < row.length) from fun hh => hixne hh.1)]
      · have hcons : runItemsFold cfg sw build stats row ((a, b) :: rest)
            = runItemsFold cfg sw build stats row rest := by
          unfold runItemsFold
          rw [List.foldl_cons]
          dsimp only
          rw [if_neg hPFI, if_neg hmem]
        rw [hcons]
        have hca : ¬(c = a) := by
          intro h
          subst h
          exact hmem (colIdx_some_facts cfg.header c i hci).1
        obtain ⟨hl, hg⟩ := ih stats row hnd' hlt
        refine ⟨hl, ?_⟩
        rw [hg, hasKey_cons, if_neg hca, getD_cons, if_neg hca]

/-- The items loop writes only numeric values, so data cells stay numeric. -/
theorem runItemsFold_rowVals (cfg : AutonomyCfg) (sw build : String) :
    ∀ (ec : ErrMap) (stats : Stats) (row : List Cell),
      rowVals row → rowVals (runItemsFold cfg sw build stats row ec).2 := by
  intro ec
  induction ec with
  | nil => intro stats row h; exact h
  | cons kv rest ih =>
    intro stats row h
    obtain ⟨a, b⟩ := kv
    by_cases hPFI : a = "PASS" ∨ a = "FAIL" ∨ a = "INVALID"
    · have hcons : runItemsFold cfg sw build stats row ((a, b) :: rest)
          = runItemsFold cfg sw build stats row rest := by
        unfold runItemsFold
        rw [List.foldl_cons]
        dsimp only
        rw [if_pos hPFI]
      rw [hcons]
      exact ih stats row h
    · by_cases hmem : a ∈ cfg.header
      · cases hcol : colIdx cfg.header a with
        | none =>
          have hcons : runItemsFold cfg sw build stats row ((a, b) :: rest)
              = runItemsFold cfg sw build (bumpStat stats (sw, build) a) row rest := by
            unfold runItemsFold
            rw [List.foldl_cons]
            dsimp only
            rw [if_neg hPFI, if_pos hmem, hcol]
          rw [hcons]
          exact ih _ row h
        | some ix =>
          have hcons : runItemsFold cfg sw build stats row ((a, b) :: rest)
              = runItemsFold cfg sw build (bumpStat stats (sw, build) a)
                  (row.set ix (.val b)) rest := by
            unfold runItemsFold
            rw [List.foldl_cons]
            dsimp only
            rw [if_neg hPFI, if_pos hmem, hcol]
          rw [hcons]
          exact ih _ _ (rowVals_set row ix b h)
      · have hcons : runItemsFold cfg sw build stats row ((a, b) :: rest)
            = runItemsFold cfg sw build stats row rest := by
          unfold runItemsFold
          rw [List.foldl_cons]
          dsimp only
          rw [if_neg hPFI, if_neg hmem]
        rw [hcons]
        exact ih stats row h

/-- The composite additions succeed when every addition column is in the
header; they only write into addition columns and keep data cells numeric. -/
theorem additionsFold_props (cfg : AutonomyCfg) (sw build : String) :
    ∀ (l : List (String × List String)) (stats : Stats) (row : List Cell) (ec : ErrMap),
      (∀ a ∈ l, (colIdx cfg.header a.1).isSome) →
      ∃ out, additionsFold cfg sw build (stats, row, ec) l = .ok out
        ∧ (∀ i, (∀ a ∈ l, ¬(colIdx cfg.header a.1 = some i)) →
            out.2.1.getD i (.val (.int 0)) = row.getD i (.val (.int 0)))
        ∧ (rowVals row → rowVals out.2.1) := by
  intro l
  induction l with
  | nil =>
    intro stats row ec _
    exact ⟨(stats, row, ec), rfl, fun i _ => rfl, fun h => h⟩
  | cons a rest ih =>
    intro stats row ec hsome
    obtain ⟨acol, cols⟩ := a
    have h1 := hsome (acol, cols) (List.mem_cons_self _ _)
    cases hcol : colIdx cfg.header acol with
    | none => rw [hcol] at h1; cases h1
    | some ia =>
      have hstep : additionsFold cfg sw build (stats, row, ec) ((acol, cols) :: rest)
          = additionsFold cfg sw build
              ((if 1 ≤ (sumValues ec cols).1.toRat then bumpStat stats (sw, build) acol
                else stats),
               (row.set ia (.val (sumValues ec cols).1)), (sumValues ec cols).2) rest := by
        simp only [additionsFold, hcol]
      rw [hstep]
      obtain ⟨out, hout, hpres, hvals⟩ :=
        ih _ _ _ (fun a ha => hsome a (List.mem_cons_of_mem _ ha))
      refine ⟨out, hout, ?_, ?_⟩
      · intro i hni
        rw [hpres i (fun a ha => hni a (List.mem_cons_of_mem _ ha))]
        have hne : ¬(ia = i) := by
          intro h
          exact hni (acol, cols) (List.mem_cons_self _ _) (h ▸ hcol)
        rw [getD_set, if_neg (fun hh => hne hh.1)]
      · intro hv
        exact hvals (rowVals_set _ _ _ hv)

/-- Numeric reading of a row cell (`0` on the unreachable string columns). -/
def cellNum : Cell → Rat
  | .val v => v.toRat
  | .str _ => 0

/-- The transition `(start_state, end_state)` fires on this run's row:
`row[idx[start]] >= 1 and row[idx[end]] == 0`. -/
def transFires (cfg : AutonomyCfg) (row : List Cell) (t : String × (String × String)) :
    Prop :=
  ∃ i1 i2, colIdx cfg.header t.2.1 = some i1 ∧ colIdx cfg.header t.2.2 = some i2
    ∧ 1 ≤ cellNum (row.getD i1 (.val (.int 0)))
    ∧ cellNum (row.getD i2 (.val (.int 0))) = 0

theorem eq_of_mem_nodup_fst {α β : Type} (l : List (α × β)) (x y : α × β)
    (hx : x ∈ l) (hy : y ∈ l) (hn : (l.map Prod.fst).Nodup) (hfst : x.1 = y.1) : x = y := by
  induction l with
  | nil => cases hx
  | cons z zs ih =>
    rw [List.map_cons] at hn
    have hn2 := List.nodup_cons.mp hn
    rcases List.mem_cons.mp hx with hx1 | hx1 <;> rcases List.mem_cons.mp hy with hy1 | hy1
    · rw [hx1, hy1]
    · subst hx1
      exact absurd (hfst ▸ List.mem_map_of_mem Prod.fst hy1) hn2.1
    · subst hy1
      exact absurd (hfst ▸ List.mem_map_of_mem Prod.fst hx1) hn2.1
    · exact ih hx1 hy1 hn2.2

/-- The transition loop succeeds on a well-formed configuration, and an
entry named `nm` appears in its output exactly when some configured
transition named `nm` fires on the row. -/
theorem emitGo_props (cfg : AutonomyCfg) (row : List Cell)
    (hval : ∀ j, 2 ≤ j → ∃ v, row.getD j (Cell.val (.int 0)) = Cell.val v) :
    ∀ (ts : List (String × (String × String))) (acc : List (String × Cell × Cell)),
      (∀ t ∈ ts, (∃ i1, colIdx cfg.header t.2.1 = some i1 ∧ 2 ≤ i1)
          ∧ (∃ i2, colIdx cfg.header t.2.2 = some i2 ∧ 2 ≤ i2)) →
      ∃ out, emitGo cfg row acc ts = .ok out
        ∧ ∀ nm, ((∃ c1 c2, (nm, c1, c2) ∈ out)
            ↔ ((∃ c1 c2, (nm, c1, c2) ∈ acc)
              ∨ ∃ t ∈ ts, t.1 = nm ∧ transFires cfg row t)) := by
  intro ts
  induction ts with
  | nil =>
    intro acc _
    refine ⟨acc, rfl, fun nm => ?_⟩
    simp
  | cons t rest ih =>
    intro acc hwf
    obtain ⟨⟨i1, hi1, hi12⟩, ⟨i2, hi2, hi22⟩⟩ := hwf t (List.mem_cons_self _ _)
    obtain ⟨v1, hv1⟩ := hval i1 hi12
    obtain ⟨v2, hv2⟩ := hval i2 hi22
    have hwr : ∀ t' ∈ rest, (∃ i1, colIdx cfg.header t'.2.1 = some i1 ∧ 2 ≤ i1)
        ∧ (∃ i2, colIdx cfg.header t'.2.2 = some i2 ∧ 2 ≤ i2) :=
      fun t' ht' => hwf t' (List.mem_cons_of_mem _ ht')
    have hred : emitGo cfg row acc (t :: rest)
        = (if decide (1 ≤ v1.toRat) = true then
            (if cellEQ0 (row.getD i2 (Cell.val (.int 0))) = true then
              emitGo cfg row
                (acc ++ [(t.1, row.getD 0 (.val (.int 0)), row.getD 1 (.val (.int 0)))]) rest
            else emitGo cfg row acc rest)
          else emitGo cfg row acc rest) := by
      conv_lhs => unfold emitGo
      rw [hi1]
      dsimp only
      rw [hv1]
      dsimp only [cellGE1]
      rw [hi2]
    have hEQ : cellEQ0 (row.getD i2 (Cell.val (.int 0))) = decide (v2.toRat = 0) := by
      rw [hv2]
      rfl
    have hfire : transFires cfg row t ↔ (1 ≤ v1.toRat ∧ v2.toRat = 0) := by
      constructor
      · rintro ⟨j1, j2, hj1, hj2, hc1, hc2⟩
        rw [hi1] at hj1
        rw [hi2] at hj2
        cases Option.some.inj hj1
        cases Option.some.inj hj2
        rw [hv1] at hc1
        rw [hv2] at hc2
        exact ⟨hc1, hc2⟩
      · rintro ⟨h1, h2⟩
        refine ⟨i1, i2, hi1, hi2, ?_, ?_⟩
        · rw [hv1]; exact h1
        · rw [hv2]; exact h2
    by_cases ha : 1 ≤ v1.toRat
    · by_cases hb : v2.toRat = 0
      · rw [hred, if_pos (by rw [decide_eq_true ha]),
          if_pos (by rw [hEQ, decide_eq_true hb])]
        obtain ⟨out, hout, hiff⟩ := ih
          (acc ++ [(t.1, row.getD 0 (.val (.int 0)), row.getD 1 (.val (.int 0)))]) hwr
        refine ⟨out, hout, fun nm => ?_⟩
        rw [hiff nm]
        have hfi : transFires cfg row t := hfire.mpr ⟨ha, hb⟩
        constructor
        · rintro (hmem | hrest)
          · obtain ⟨c1, c2, hc⟩ := hmem
            rcases List.mem_append.mp hc with hc' | hc'
            · exact Or.inl ⟨c1, c2, hc'⟩
            · simp at hc'
              refine Or.inr ⟨t, List.mem_cons_self _ _, ?_, hfi⟩
              rw [hc'.1]
          · obtain ⟨t', ht', hnm, hf⟩ := hrest
            exact Or.inr ⟨t', List.mem_cons_of_mem _ ht', hnm, hf⟩
        · rintro (hmem | ⟨t', ht', hnm, hf⟩)
          · obtain ⟨c1, c2, hc⟩ := hmem
            exact Or.inl ⟨c1, c2, List.mem_append.mpr (Or.inl hc)⟩
          · rcases List.mem_cons.mp ht' with ht1 | ht1
            · subst ht1
              refine Or.inl ⟨row.getD 0 (.val (.int 0)), row.getD 1 (.val (.int 0)),
                List.mem_append.mpr (Or.inr ?_)⟩
              rw [← hnm]
              exact List.mem_singleton.mpr rfl
            · exact Or.inr ⟨t', ht1, hnm, hf⟩
      · rw [hred, if_pos (by rw [decide_eq_true ha]),
          if_neg (by rw [hEQ]; simp [hb])]
        obtain ⟨out, hout, hiff⟩ := ih acc hwr
        refine ⟨out, hout, fun nm => ?_⟩
        rw [hiff nm]
        have hnf : ¬transFires cfg row t := fun hf => hb (hfire.mp hf).2
        constructor
        · rintro (hmem | ⟨t', ht', hnm, hf⟩)
          · exact Or.inl hmem
          · exact Or.inr ⟨t', List.mem_cons_of_mem _ ht', hnm, hf⟩
        · rintro (hmem | ⟨t', ht', hnm, hf⟩)
          · exact Or.inl hmem
          · rcases List.mem_cons.mp ht' with ht1 | ht1
            · subst ht1
              exact absurd hf hnf
            · exact Or.inr ⟨t', ht1, hnm, hf⟩
    · rw [hred, if_neg (by simp [ha])]
      obtain ⟨out, hout, hiff⟩ := ih acc hwr
      refine ⟨out, hout, fun nm => ?_⟩
      rw [hiff nm]
      have hnf : ¬transFires cfg row t := fun hf => ha (hfire.mp hf).1
      constructor
      · rintro (hmem | ⟨t', ht', hnm, hf⟩)
        · exact Or.inl hmem
        · exact Or.inr ⟨t', List.mem_cons_of_mem _ ht', hnm, hf⟩
      · rintro (hmem | ⟨t', ht', hnm, hf⟩)
        · exact Or.inl hmem
        · rcases List.mem_cons.mp ht' with ht1 | ht1
          · subst ht1
            exact absurd hf hnf
          · exact Or.inr ⟨t', ht1, hnm, hf⟩

theorem setVal_ne_nil (m : ErrMap) (k : String) (v : Value) : setVal m k v ≠ [] := by
  cases m with
  | nil => simp [setVal]
  | cons p rest =>
    obtain ⟨a, b⟩ := p
    unfold setVal
    by_cases h : a = k
    · rw [if_pos h]
      simp
    · rw [if_neg h]
      simp

theorem dGet_ne_nil (m : ErrMap) (k : String) : (dGet m k).2 ≠ [] := by
  unfold dGet
  cases hl : m.lookup k with
  | some v =>
    cases m with
    | nil => cases hl
    | cons p rest => simp
  | none => exact setVal_ne_nil m k _

theorem isEmpty_false_of_ne_nil {α : Type} (l : List α) (h : l ≠ []) :
    l.isEmpty = false := by
  cases l with
  | nil => exact absurd rfl h
  | cons a tl => rfl

/-- The defaultdict reads of the start-location probe leave the count map
nonempty (line 1717's empty check is dead in practice). -/
theorem startedWhere_isEmpty_false (ec : ErrMap) :
    ((startedWhere ec).2).isEmpty = false := by
  unfold startedWhere
  dsimp only
  by_cases h1 : 1 ≤ (dGet ec "STARTED_ON_BASE").1.toRat
  · rw [if_pos h1]
    exact isEmpty_false_of_ne_nil _ (dGet_ne_nil ec _)
  · rw [if_neg h1]
    by_cases h2 : 1 ≤ (dGet (dGet ec "STARTED_ON_BASE").2 "STARTED_OFF_BASE").1.toRat
    · rw [if_pos h2]
      exact isEmpty_false_of_ne_nil _ (dGet_ne_nil _ _)
    · rw [if_neg h2]
      by_cases h3 : 1 ≤ (dGet (dGet (dGet ec "STARTED_ON_BASE").2 "STARTED_OFF_BASE").2
          "STARTED_ON_BASE_UNDOCKING").1.toRat
      · rw [if_pos h3]
        exact isEmpty_false_of_ne_nil _ (dGet_ne_nil _ _)
      · rw [if_neg h3]
        exact isEmpty_false_of_ne_nil _ (dGet_ne_nil _ _)

/-- The initial autonomy row reads `Cell.val (int 0)` at every data index. -/
theorem row0_getD (cfg : AutonomyCfg) (log build : String) (j : Nat) (hj : 2 ≤ j)
    (hlt : j < cfg.header.length) :
    (((List.replicate cfg.header.length (Cell.val (.int 0))).set 0
      (.str log)).set 1 (.str build)).getD j (.val (.int 0)) = Cell.val (.int 0) := by
  rw [getD_set, if_neg (fun hh => by omega), getD_set, if_neg (fun hh => by omega),
    getD_replicate, if_pos hlt]

/-- C8: per finalized run and configured (start_state, end_state) transition
pair, a transition-failure record named after that pair is emitted for the
run if and only if the run's count for start_state is at least 1 and its
count for end_state equals 0 — for every bucket (any start location or
build) and any surrounding statistics. -/
theorem C8_transition_failure_iff (cfg : AutonomyCfg) (log build : String)
    (stats : Stats) (ec : ErrMap) (tname s e : String) (i_s i_e : Nat)
    (hnd_ec : (ec.map Prod.fst).Nodup)
    (hs_i : colIdx cfg.header s = some i_s) (his2 : 2 ≤ i_s)
    (he_i : colIdx cfg.header e = some i_e) (hie2 : 2 ≤ i_e)
    (hinj_s : ∀ x ∈ cfg.header, ¬(x = s) → ¬(colIdx cfg.header x = some i_s))
    (hinj_e : ∀ x ∈ cfg.header, ¬(x = e) → ¬(colIdx cfg.header x = some i_e))
    (hsPFI : ¬(s = "PASS" ∨ s = "FAIL" ∨ s = "INVALID"))
    (hePFI : ¬(e = "PASS" ∨ e = "FAIL" ∨ e = "INVALID"))
    (hs_nadd : s ∉ cfg.additions.map Prod.fst)
    (he_nadd : e ∉ cfg.additions.map Prod.fst)
    (hadd : ∀ a ∈ cfg.additions, (colIdx cfg.header a.1).isSome)
    (htr : (tname, (s, e)) ∈ cfg.transitions)
    (htn : (cfg.transitions.map Prod.fst).Nodup)
    (hwf : ∀ t ∈ cfg.transitions,
      (∃ i1, colIdx cfg.header t.2.1 = some i1 ∧ 2 ≤ i1)
      ∧ (∃ i2, colIdx cfg.header t.2.2 = some i2 ∧ 2 ≤ i2)) :
    ∃ out, processRun cfg log build stats ec = .ok out
      ∧ ∃ res, emitTransitions cfg out.2.1 = .ok res
      ∧ ((∃ c1 c2, (tname, c1, c2) ∈ res)
          ↔ (1 ≤ (getD ec s (.int 0)).toRat ∧ (getD ec e (.int 0)).toRat = 0)) := by
  have hs_lt : i_s < cfg.header.length := (colIdx_some_facts cfg.header s i_s hs_i).2
  have he_lt : i_e < cfg.header.length := (colIdx_some_facts cfg.header e i_e he_i).2
  have hnd1 : (((startedWhere ec).2).map Prod.fst).Nodup := startedWhere_nodup ec hnd_ec
  have hlen0 : (((List.replicate cfg.header.length (Cell.val (.int 0))).set 0
      (.str log)).set 1 (.str build)).length = cfg.header.length := by
    rw [List.length_set, List.length_set, List.length_replicate]
  obtain ⟨hrl_s, hrg_s⟩ := runItemsFold_getD cfg (startedWhere ec).1 build s i_s hs_i
    hinj_s hsPFI (startedWhere ec).2 stats
    (((List.replicate cfg.header.length (Cell.val (.int 0))).set 0
      (.str log)).set 1 (.str build)) hnd1 (by rw [hlen0]; exact hs_lt)
  obtain ⟨hrl_e, hrg_e⟩ := runItemsFold_getD cfg (startedWhere ec).1 build e i_e he_i
    hinj_e hePFI (startedWhere ec).2 stats
    (((List.replicate cfg.header.length (Cell.val (.int 0))).set 0
      (.str log)).set 1 (.str build)) hnd1 (by rw [hlen0]; exact he_lt)
  obtain ⟨out, hout, hpres, hvals⟩ := additionsFold_props cfg (startedWhere ec).1 build
    cfg.additions
    (if hasKey (startedWhere ec).2 "CLEANING_START"
        || hasKey (startedWhere ec).2 "SUSPENDED_CHARGING_START" then
      bumpStat (runItemsFold cfg (startedWhere ec).1 build stats
        (((List.replicate cfg.header.length (Cell.val (.int 0))).set 0
          (.str log)).set 1 (.str build)) (startedWhere ec).2).1
        ((startedWhere ec).1, build) "count"
    else (runItemsFold cfg (startedWhere ec).1 build stats
      (((List.replicate cfg.header.length (Cell.val (.int 0))).set 0
        (.str log)).set 1 (.str build)) (startedWhere ec).2).1)
    (runItemsFold cfg (startedWhere ec).1 build stats
      (((List.replicate cfg.header.length (Cell.val (.int 0))).set 0
        (.str log)).set 1 (.str build)) (startedWhere ec).2).2
    (startedWhere ec).2 hadd
  have hrun : processRun cfg log build stats ec = .ok out := by
    unfold processRun
    dsimp only
    rw [startedWhere_isEmpty_false]
    simp only [Bool.false_eq_true, if_false]
    exact hout
  have havoid : ∀ c i, colIdx cfg.header c = some i → c ∉ cfg.additions.map Prod.fst →
      (∀ x ∈ cfg.header, ¬(x = c) → ¬(colIdx cfg.header x = some i)) →
      (∀ a ∈ cfg.additions, ¬(colIdx cfg.header a.1 = some i)) := by
    intro c i hci hnadd hinj a ha
    have h1 := hadd a ha
    cases hcol : colIdx cfg.header a.1 with
    | none => rw [hcol] at h1; cases h1
    | some ia =>
      have hmem : a.1 ∈ cfg.header := (colIdx_some_facts cfg.header a.1 ia hcol).1
      have hane : ¬(a.1 = c) := fun h => hnadd (h ▸ List.mem_map_of_mem Prod.fst ha)
      exact fun h => hinj a.1 hmem hane (by rw [hcol]; exact h)
  have hv_s : (runItemsFold cfg (startedWhere ec).1 build stats
      (((List.replicate cfg.header.length (Cell.val (.int 0))).set 0
        (.str log)).set 1 (.str build)) (startedWhere ec).2).2.getD i_s (.val (.int 0))
      = Cell.val (getD ec s (.int 0)) := by
    rw [hrg_s]
    by_cases hk : hasKey (startedWhere ec).2 s = true
    · rw [if_pos hk, startedWhere_getD]
    · rw [if_neg hk, row0_getD cfg log build i_s his2 hs_lt]
      have hk' : hasKey (startedWhere ec).2 s = false := by
        revert hk
        cases hasKey (startedWhere ec).2 s <;> simp
      rw [← startedWhere_getD ec s, getD_of_hasKey_false _ s hk']
  have hv_e : (runItemsFold cfg (startedWhere ec).1 build stats
      (((List.replicate cfg.header.length (Cell.val (.int 0))).set 0
        (.str log)).set 1 (.str build)) (startedWhere ec).2).2.getD i_e (.val (.int 0))
      = Cell.val (getD ec e (.int 0)) := by
    rw [hrg_e]
    by_cases hk : hasKey (startedWhere ec).2 e = true
    · rw [if_pos hk, startedWhere_getD]
    · rw [if_neg hk, row0_getD cfg log build i_e hie2 he_lt]
      have hk' : hasKey (startedWhere ec).2 e = false := by
        revert hk
        cases hasKey (startedWhere ec).2 e <;> simp
      rw [← startedWhere_getD ec e, getD_of_hasKey_false _ e hk']
  have hrow_s : out.2.1.getD i_s (.val (.int 0)) = Cell.val (getD ec s (.int 0)) := by
    rw [hpres i_s (havoid s i_s hs_i hs_nadd hinj_s)]
    exact hv_s
  have hrow_e : out.2.1.getD i_e (.val (.int 0)) = Cell.val (getD ec e (.int 0)) := by
    rw [hpres i_e (havoid e i_e he_i he_nadd hinj_e)]
    exact hv_e
  have hrv : rowVals out.2.1 :=
    hvals (runItemsFold_rowVals cfg (startedWhere ec).1 build (startedWhere ec).2 stats
      _ (rowVals_row0 cfg log build))
  obtain ⟨res, hres, hiff⟩ := emitGo_props cfg out.2.1 hrv cfg.transitions [] hwf
  refine ⟨out, hrun, res, hres, ?_⟩
  rw [hiff tname]
  constructor
  · rintro (hnil | ⟨t, ht, htnm, hf⟩)
    · obtain ⟨c1, c2, hc⟩ := hnil
      cases hc
    · have hteq : t = (tname, (s, e)) :=
        eq_of_mem_nodup_fst cfg.transitions t (tname, (s, e)) ht htr htn htnm
      subst hteq
      obtain ⟨j1, j2, hj1, hj2, hc1, hc2⟩ := hf
      rw [hs_i] at hj1
      rw [he_i] at hj2
      cases Option.some.inj hj1
      cases Option.some.inj hj2
      rw [hrow_s] at hc1
      rw [hrow_e] at hc2
      exact ⟨hc1, hc2⟩
  · rintro ⟨h1, h2⟩
    refine Or.inr ⟨(tname, (s, e)), htr, rfl, i_s, i_e, hs_i, he_i, ?_, ?_⟩
    · rw [hrow_s]
      exact h1
    · rw [hrow_e]
      exact h2

/-- The autonomy configuration of the concrete C8 scenario. -/
def cfg8 : AutonomyCfg :=
  ⟨["LOG_NAME", "BUILD_VERSION", "UNDOCKING", "DOCKING"], [],
   [("undock_to_dock", ("UNDOCKING", "DOCKING"))]⟩

/-- Witness for C8: a run that undocked three times but never docked gets
exactly the transition-failure record of the configured pair. -/
theorem C8_witness :
    ∃ out, processRun cfg8 "log1" "1.0" [] [("UNDOCKING", Value.int 3)] = .ok out
      ∧ ∃ res, emitTransitions cfg8 out.2.1 = .ok res
      ∧ ((∃ c1 c2, ("undock_to_dock", c1, c2) ∈ res)
          ↔ (1 ≤ (getD [("UNDOCKING", Value.int 3)] "UNDOCKING" (.int 0)).toRat
            ∧ (getD [("UNDOCKING", Value.int 3)] "DOCKING" (.int 0)).toRat = 0)) := by
  refine C8_transition_failure_iff cfg8 "log1" "1.0" [] [("UNDOCKING", Value.int 3)]
    "undock_to_dock" "UNDOCKING" "DOCKING" 2 3 (by decide) rfl (by norm_num) rfl
    (by norm_num) (by decide) (by decide) (by decide) (by decide) (by decide)
    (by decide) (by decide) (by decide) (by decide) ?_
  intro t ht
  rcases List.mem_singleton.mp ht with rfl
  exact ⟨⟨2, rfl, by norm_num⟩, ⟨3, rfl, by norm_num⟩⟩

end BB



